import Mathlib

/-!
Verification of the trualias mail-alias resolution engine
(src/python/trualias) against its natural-language specification.

The development is a shallow embedding of the Python source into Lean:

* strings are `List Char` (`Str`), with Python slicing/indexing semantics
  (`pySlice`, `pyIdx`) including negative indices and clamping;
* Python's `None`-or-value results are `Option`;
* Python truthiness of strings/optionals is made explicit (`pyTruthyS`,
  `pyTruthyO`);
* character "sets" are the literal character lists of matching.py;
* the recursive sketch matcher is embedded with an explicit fuel
  parameter (chosen large enough for every loop bound of the source;
  all loops of the source advance a position which is bounded by the
  input length, or descend in the sketch).

Definitions follow the source files matching.py, alias.py, lookup.py,
config.py and milter.py; each definition's doc comment names the Python
function it embeds.
-/

namespace Trualias

/-- Python strings, embedded as lists of characters. -/
abbrev Str := List Char

/-- Coerce a Lean string literal to the embedded string type. -/
def strOf (s : String) : Str := s.data

/-- Python truthiness of a string: nonempty. -/
def pyTruthyS (s : Str) : Bool := !s.isEmpty

/-- Python truthiness of a `str`-or-`None` value (`None` is falsy,
the empty string is falsy). -/
def pyTruthyO (s : Option Str) : Bool :=
  match s with
  | none => false
  | some v => !v.isEmpty

/-- Python indexing `l[i]`: negative indices count from the end;
out-of-range indexing raises, which is embedded as `none`. -/
def pyIdx {α : Type} (l : List α) (i : Int) : Option α :=
  if i < 0 then
    let j : Int := (l.length : Int) + i
    if j < 0 then none else l.get? j.toNat
  else l.get? i.toNat

/-- Python slicing `l[lo:hi]`: negative bounds count from the end, all
bounds are clamped into range. -/
def pySlice {α : Type} (l : List α) (lo hi : Int) : List α :=
  let n : Int := (l.length : Int)
  let lo' : Int := if lo < 0 then max (n + lo) 0 else min lo n
  let hi' : Int := if hi < 0 then max (n + hi) 0 else min hi n
  (l.take hi'.toNat).drop lo'.toNat

/-- Python `l[lo:]`. -/
def pySliceFrom {α : Type} (l : List α) (lo : Int) : List α :=
  pySlice l lo (l.length : Int)

/-- Python `str.lower()` on ASCII letters (the configuration language and
the milter both only deal in ASCII). -/
def pyLowerC (c : Char) : Char :=
  if 'A' ≤ c ∧ c ≤ 'Z' then Char.ofNat (c.toNat + 32) else c

/-- `str.lower()` lifted to strings. -/
def pyLowerS (s : Str) : Str := s.map pyLowerC

/-- Whitespace characters stripped by Python `str.strip()`. -/
def pyIsWS (c : Char) : Bool :=
  c = ' ' ∨ c = '\t' ∨ c = '\n' ∨ c = '\r' ∨ c = Char.ofNat 11 ∨ c = Char.ofNat 12

/-- Python `str.strip()`. -/
def pyStrip (s : Str) : Str :=
  ((s.dropWhile pyIsWS).reverse.dropWhile pyIsWS).reverse

/-- Python `str.find(c)`: index of the first occurrence, `-1` if absent. -/
def pyFindC (s : Str) (c : Char) : Int :=
  match s.findIdx? (· = c) with
  | some i => (i : Int)
  | none => -1

/-- Python `str.rfind(c)`: index of the last occurrence, `-1` if absent. -/
def pyRFindC (s : Str) (c : Char) : Int :=
  match (s.reverse.findIdx? (· = c)) with
  | some i => ((s.length : Int) - 1 - (i : Int))
  | none => -1

/-- Python `str.split(sep)` for a single-character separator:
`"".split(sep) = [""]`, separators at the ends produce empty pieces. -/
def pySplitC (s : Str) (sep : Char) : List Str :=
  match s with
  | [] => [[]]
  | c :: rest =>
    match pySplitC rest sep with
    | [] => if c = sep then [[], []] else [[c]]
    | piece :: more => if c = sep then [] :: piece :: more else (c :: piece) :: more

/-- Python `int(s)` on a decimal literal: optional surrounding whitespace,
optional sign, nonempty digit run; anything else raises `ValueError`
(embedded as `none`). -/
def pyInt (s : Str) : Option Int :=
  let t := pyStrip s
  let (neg, digits) : Bool × Str :=
    match t with
    | '-' :: rest => (true, rest)
    | '+' :: rest => (false, rest)
    | _ => (false, t)
  if digits.isEmpty ∨ ¬digits.all (·.isDigit) then none
  else
    let n : Nat := digits.foldl (fun acc c => acc * 10 + (c.toNat - 48)) 0
    some (if neg then -(n : Int) else (n : Int))

/-- Decimal rendering `str(n)` of a natural number. -/
def natDec (n : Nat) : Str := (toString n).data

/-- Helper for `dedupF`: drop elements already seen. -/
def dedupFGo {α : Type} [DecidableEq α] (seen : List α) : List α → List α
  | [] => []
  | x :: xs => if x ∈ seen then dedupFGo seen xs else x :: dedupFGo (seen ++ [x]) xs

/-- Keep the first occurrence of each element (canonical iteration order
for the Python `set`s built by config.py, which are only ever inspected
through cardinality and an arbitrary-element pick). -/
def dedupF {α : Type} [DecidableEq α] (l : List α) : List α := dedupFGo [] l

/-! ## matching.py: character classes and matcher primitives -/

/-- matching.py `MATCH_ALPHA`. -/
def MATCH_ALPHA : Str := strOf ("ABCDEFGHIJKLMNOPQRSTUVWXYZabcdefghijklmnopqrstuvwxyz")

/-- matching.py `MATCH_NUMBER`. -/
def MATCH_NUMBER : Str := strOf ("1234567890")

/-- matching.py `MATCH_ALNUM`. -/
def MATCH_ALNUM : Str := MATCH_ALPHA ++ MATCH_NUMBER

/-- matching.py `MATCH_FQDN`. -/
def MATCH_FQDN : Str := MATCH_ALNUM ++ strOf (".-")

/-- matching.py `MATCH_IDENT`. -/
def MATCH_IDENT : Str := MATCH_ALNUM ++ strOf ("_")

/-- The three character sets of a `Matcher` (start, interior, end). -/
structure CharSets where
  startC : Str
  middleC : Str
  endC : Str
deriving DecidableEq

/-- The scanning loop of `Matcher.__call__` (the greedy/minimal branch):
walks the input from `pos`, remembering the last position whose character
is in the end set, stopping at the minimal-match break or at a character
that cannot be an interior character.  `suffix` is the input from `pos`. -/
def matcherScanGo (endC midC : Str) (minimal : Bool) (endPos : Option Int) :
    Str → Nat → Option Nat → Option Nat
  | [], _, valid => valid
  | c :: rest, pos, valid =>
    let valid1 := if c ∈ endC then some pos else valid
    let endReached : Bool :=
      match endPos with
      | none => true
      | some e => e ≤ (pos : Int)
    if c ∈ endC ∧ minimal ∧ endReached then valid1
    else if c ∉ midC then valid1
    else matcherScanGo endC midC minimal endPos rest (pos + 1) valid1

/-- matching.py `Matcher.__call__`.  Returns the (start, end) position pair
or `None`.  When `endPos` is given and `minimal` is false the fixed
substring `address[start_pos:end_pos]` is validated against the three
character sets; otherwise the scanning loop runs. -/
def matcherCallPlain (cs : CharSets) (address : Str) (startPos : Nat)
    (endPos : Option Int) (minimal : Bool) : Option (Nat × Int) :=
  if address.length ≤ startPos then none
  else if endPos.isSome ∧ ¬minimal then
    let e := endPos.getD 0
    let toMatch := pySlice address (startPos : Int) e
    match toMatch with
    | [] => none
    | h :: _ =>
      if h ∈ cs.startC ∧ toMatch.getLastD h ∈ cs.endC then
        if 2 < toMatch.length ∧ ¬((toMatch.drop 1).dropLast.all (· ∈ cs.middleC)) then none
        else some (startPos, e)
      else none
  else
    match matcherScanGo cs.endC cs.middleC minimal endPos (address.drop startPos) startPos none with
    | none => none
    | some v => some (startPos, (v : Int))

/-- matching.py `MatchAny.__call__`. -/
def matchAnyCall (address : Str) (startPos : Nat) (endPos : Option Int)
    (minimal : Bool) : Option (Nat × Int) :=
  let offEnd : Bool :=
    match endPos with
    | some e => decide ((address.length : Int) ≤ e)
    | none => false
  if decide (address.length ≤ startPos) || offEnd then none
  else
    match endPos with
    | some e => some (startPos, if e < (startPos : Int) then (startPos : Int) else e)
    | none =>
      some (startPos,
        if ¬minimal then
          (if (address.length : Int) - 1 = 0 then (startPos : Int) else (address.length : Int) - 1)
        else (startPos : Int))

/-- One elementary shape of a code matcher: `'any'` or `'number'`. -/
inductive CodeShape where
  | anyS : CodeShape
  | numberS : CodeShape
deriving DecidableEq

/-- `MatchCode.build_anchors`: fold the shapes into the anchors list
(`'any'` bumps the last anchor, `'number'` appends a new zero anchor). -/
def buildAnchors (shapes : List CodeShape) : List Nat :=
  shapes.foldl
    (fun acc sh =>
      match sh with
      | CodeShape.anyS => acc.dropLast ++ [acc.getLastD 0 + 1]
      | CodeShape.numberS => acc ++ [0])
    [0]

/-- `MatchCode.build_anchors`: the trailing group size (number of trailing
zero anchors, capped at `anchors.length - 1`). -/
def endGroupSize (anchors : List Nat) : Nat :=
  min ((anchors.reverse.takeWhile (· = 0)).length) (anchors.length - 1)

/-- The digit-seeking inner `while` of `MatchCode.__call__`'s minimal-match
loop: first index `≥ pos` holding a digit, `none` if the input runs out. -/
def findDigitFrom (address : Str) (pos : Nat) : Option Nat :=
  match (address.drop pos).findIdx? (· ∈ MATCH_NUMBER) with
  | some i => some (pos + i)
  | none => none

/-- The minimal-match loop of `MatchCode.__call__` over the anchors. -/
def minEndGo (address : Str) : List Nat → Bool → Nat → Option Nat
  | [], _, me => some me
  | a :: rest, first, me =>
    let step1 : Option Nat := if first then some me else (findDigitFrom address me).map (· + 1)
    match step1 with
    | none => none
    | some m1 =>
      let m2 := m1 + a
      if address.length ≤ m2 ∧ rest ≠ [] then none
      else minEndGo address rest false m2

/-- The greedy trailing-group extension loop of `MatchCode.__call__`
(a `do`-`while`: the body runs once even when already off the end). -/
def codeGreedyGo (address : Str) (egs : Nat) : Nat → Int → Int → Int
  | 0, _, best => best
  | fuel + 1, curr, best =>
    let best1 := if (pySlice address (curr - (egs : Int) + 1) (curr + 1)).all (· ∈ MATCH_NUMBER)
      then curr else best
    let curr1 := curr + 1
    if (address.length : Int) ≤ curr1 then best1
    else codeGreedyGo address egs fuel curr1 best1

/-- matching.py `MatchCode.__call__`.  Note the Python truthiness tests on
`end_pos` (`end_pos and …`, `if end_pos:`, `end_pos or …`): an `end_pos`
of `0` behaves like an absent one in those places. -/
def matchCodeCall (shapes : List CodeShape) (address : Str) (startPos : Nat)
    (endPos : Option Int) (minimal : Bool) : Option (Nat × Int) :=
  let anchors := buildAnchors shapes
  let egs := endGroupSize anchors
  let truthyEnd : Bool := match endPos with
    | none => false
    | some e => decide (e ≠ 0)
  if decide (address.length ≤ startPos) ||
      (truthyEnd && decide ((address.length : Int) ≤ endPos.getD 0)) then none
  else
    let nAtStart : Bool := decide (anchors.headD 1 = 0)
    let nAtEnd : Bool := decide (anchors.getLastD 1 = 0)
    let endCharDigit : Bool :=
      match pyIdx address (endPos.getD 0) with
      | some c => decide (c ∈ MATCH_NUMBER)
      | none => false
    if nAtStart && !(decide (address.getD startPos ' ' ∈ MATCH_NUMBER)) then none
    else if nAtEnd && truthyEnd && !endCharDigit then none
    else
      match minEndGo address anchors true startPos with
      | none => none
      | some m =>
        let mE : Int := (m : Int) - 1
        if minimal then some (startPos, mE)
        else
          match endPos with
          | some e =>
            if e = mE then some (startPos, mE)
            else if e < mE then none
            else
              if nAtEnd then
                if e ≠ 0 then
                  if ¬((pySlice address (e - (egs : Int) + 1) (e + 1)).all (· ∈ MATCH_NUMBER))
                  then none
                  else some (startPos, if e ≠ 0 then e else (address.length : Int) - 1)
                else
                  let e2 := codeGreedyGo address egs (address.length + 2) (mE + 1) mE
                  some (startPos, if e2 ≠ 0 then e2 else (address.length : Int) - 1)
              else some (startPos, if e ≠ 0 then e else (address.length : Int) - 1)
          | none =>
            if nAtEnd then
              let e2 := codeGreedyGo address egs (address.length + 2) (mE + 1) mE
              some (startPos, if e2 ≠ 0 then e2 else (address.length : Int) - 1)
            else some (startPos, (address.length : Int) - 1)

/-- A matcher of a sketch: `Matcher`, `MatchAny` or `MatchCode`
(the inheritance hierarchy of matching.py as a sum type). -/
inductive MatcherK where
  | plain (name : Str) (cs : CharSets)
  | anyM (name : Str)
  | codeM (name : Str) (shapes : List CodeShape)
deriving DecidableEq

/-- The name of a matcher (its `repr`, used for identifier types and for
`Sketch` substitution). -/
def matcherName : MatcherK → Str
  | MatcherK.plain n _ => n
  | MatcherK.anyM n => n
  | MatcherK.codeM n _ => n

/-- Dynamic dispatch of `__call__` over the matcher hierarchy. -/
def callMatcher : MatcherK → Str → Nat → Option Int → Bool → Option (Nat × Int)
  | MatcherK.plain _ cs => matcherCallPlain cs
  | MatcherK.anyM _ => matchAnyCall
  | MatcherK.codeM _ shapes => matchCodeCall shapes

/-! ## alias.py: sketches, the sketch matcher, identifiers -/

/-- One element of a sketch: a literal string (even positions) or a
matcher (odd positions). -/
inductive Elem where
  | lit (s : Str)
  | mat (mk : MatcherK)
deriving DecidableEq

/-- `str()` of a sketch element (literals render as themselves; a matcher
renders as its name). -/
def elemStr : Elem → Str
  | Elem.lit s => s
  | Elem.mat mk => matcherName mk

/-- The matcher of an odd-position element (the default is never reached
on well-formed sketches). -/
def elemMatcher : Elem → MatcherK
  | Elem.mat mk => mk
  | Elem.lit _ => MatcherK.anyM []

/-- One matched identifier (alias.py `Identifier`): its type is the name
of the matcher that captured it. -/
structure Identifier where
  type : Str
  value : Str
deriving DecidableEq

/-- alias.py `IdentifierList`: the list of candidate identifier
assignments.  The empty-but-successful state is `[[]]`; failure is `[]`;
truthiness is nonemptiness. -/
abbrev IdentList := List (List Identifier)

/-- The literal-grouping loop of alias.py `Sketch.__init__` combined with
`Sketch.using`: `pending` is the literal being accumulated; substitutable
matchers (`account` / `alias`) are spliced together with their following
literal into the pending literal. -/
def substGo (account aliasS : Str) (pending : Str) : List Elem → List Elem
  | [] => [Elem.lit pending]
  | Elem.mat mk :: Elem.lit s2 :: rest =>
    if matcherName mk = strOf ("account") then
      substGo account aliasS (pending ++ account ++ s2) rest
    else if matcherName mk = strOf ("alias") then
      substGo account aliasS (pending ++ aliasS ++ s2) rest
    else Elem.lit pending :: Elem.mat mk :: substGo account aliasS s2 rest
  | Elem.mat mk :: rest =>
    -- a matcher not followed by a literal: sketches built by build_sketch
    -- always end in a literal, so this shape is unreachable.
    Elem.lit pending :: Elem.mat mk :: substGo account aliasS [] rest
  | Elem.lit s2 :: rest =>
    -- two adjacent literals: likewise unreachable on built sketches.
    Elem.lit pending :: substGo account aliasS s2 rest

/-- alias.py `Sketch.__init__` + `Sketch.using`: substitute the `account`
and `alias` matchers of a raw sketch by splicing the given strings into
the neighbouring literals. -/
def substSketch (account aliasS : Str) : List Elem → List Elem
  | [] => []
  | Elem.lit s :: rest => substGo account aliasS s rest
  | Elem.mat mk :: rest => Elem.mat mk :: substSketch account aliasS rest

mutual

/-- alias.py `MatchExpression.match_sketch`, with the recursion driven by
an explicit fuel parameter (every loop advances the scan position, which
is bounded by the input length, or descends two sketch positions; the
initial fuel of `matchSketch` covers both).  `sk` is the sketch suffix
from position `i`. -/
def matchSketchF : Nat → Str → List Elem → Nat → IdentList
  | 0, _, _, _ => []
  | fuel + 1, address, sk, pos =>
    let atEnd : Nat :=
      (if sk.length ≤ 1 then 1 else 0) + (if address.length ≤ pos then 1 else 0)
    if atEnd ≠ 0 then (if atEnd = 2 then [[]] else [])
    else
      let (pos1, okLit) : Nat × Bool :=
        if pos = 0 then
          let l := elemStr (sk.headD (Elem.lit []))
          if l.isPrefixOf address then (l.length, true) else (0, false)
        else (pos, true)
      if ¬okLit then []
      else if sk.length ≤ 1 then [[]]
      else
        match sk with
        | e0 :: e1 :: rest =>
          let _ := e0
          let endLit : Option Str :=
            match rest.head? with
            | some r => (let s := elemStr r; if s.isEmpty then none else some s)
            | none => none
          sketchLoopF fuel address (elemMatcher e1) endLit rest pos1 pos1
        | _ => []

/-- The `while end_offset < len(address)` loop of `match_sketch`. -/
def sketchLoopF : Nat → Str → MatcherK → Option Str → List Elem → Nat → Nat → IdentList
  | 0, _, _, _, _, _, _ => []
  | fuel + 1, address, mk, endLit, rest, startPos, eo =>
    if address.length ≤ eo then []
    else
      match endLit with
      | some litS =>
        if litS.isPrefixOf (address.drop eo) ∧
            (callMatcher mk address startPos (some ((eo : Int) - 1)) false).isSome then
          let identValue := pySlice address (startPos : Int) (eo : Int)
          let eo2 := eo + litS.length
          let sub := matchSketchF fuel address rest eo2
          (if ¬sub.isEmpty then sub.map (fun m => ⟨matcherName mk, identValue⟩ :: m) else []) ++
            sketchLoopF fuel address mk endLit rest startPos eo2
        else sketchLoopF fuel address mk endLit rest startPos (eo + 1)
      | none =>
        let eo1 := eo + 1
        if (callMatcher mk address startPos (some ((eo1 : Int) - 1)) false).isSome then
          let identValue := pySlice address (startPos : Int) (eo1 : Int)
          let sub := matchSketchF fuel address rest eo1
          (if ¬sub.isEmpty then sub.map (fun m => ⟨matcherName mk, identValue⟩ :: m) else []) ++
            sketchLoopF fuel address mk endLit rest startPos eo1
        else sketchLoopF fuel address mk endLit rest startPos eo1
end

/-- `match_sketch` at the standard entry point, with fuel covering every
loop bound of the source. -/
def matchSketch (address : Str) (sk : List Elem) (pos : Nat) : IdentList :=
  matchSketchF ((sk.length + 2) * (address.length + 2)) address sk pos

/-- The names of the field matchers (`MatchExpression.IDENT_MATCHERS`). -/
def IDENT_MATCHER_NAMES : List Str :=
  [strOf ("alnum"), strOf ("alpha"), strOf ("number"), strOf ("ident"), strOf ("fqdn")]

/-- `IdentifierList.unpack` for a single candidate: the (last) `code`
identifier and the ordered field identifiers. -/
def unpackOne (m : List Identifier) : Option Identifier × List Identifier :=
  (m.foldl (fun acc id => if id.type = strOf ("code") then some id else acc) none,
   m.filter (fun id => id.type ≠ strOf ("code") ∧ id.type ∈ IDENT_MATCHER_NAMES))

/-- `IdentifierList.unpack`. -/
def unpack (l : IdentList) : List (Option Identifier × List Identifier) :=
  l.map unpackOne

/-! ## alias.py: calc functions and `CalcExpression.calculate` -/

/-- A calc-call argument: the parser produces strings; the semantic check
preconverts the label index and character offset of `CHAR` to `int`. -/
inductive CalcArg where
  | s (v : Str)
  | i (v : Int)
deriving DecidableEq

/-- One calc call `[func] + args` of a calc expression. -/
structure Calc where
  func : Str
  args : List CalcArg
deriving DecidableEq

/-- Python truthiness of an argument value. -/
def truthyArg : CalcArg → Bool
  | CalcArg.s v => !v.isEmpty
  | CalcArg.i n => decide (n ≠ 0)

/-- `int(...)` of an argument in an integer context; a string here raises,
embedded as `none` (argument positions that reach integer contexts are
preconverted by the semantic check). -/
def argAsInt : CalcArg → Option Int
  | CalcArg.i n => some n
  | CalcArg.s _ => none

/-- alias.py `Subscriptable`. -/
structure Subscriptable where
  identifiers : List Identifier
  account : Str
  aliasV : Str
deriving DecidableEq

/-- `Subscriptable.get`: `'account'`/`'alias'` resolve to the respective
strings, any other subscript is parsed as a 1-based integer index
(failures of `int()` or out-of-range indexing raise, embedded as `none`). -/
def subGet (sub : Subscriptable) (arg : CalcArg) : Option Identifier :=
  match arg with
  | CalcArg.i _ => none
  | CalcArg.s sv =>
    let l := pyLowerS sv
    if l = strOf ("account") then some ⟨strOf ("account"), sub.account⟩
    else if l = strOf ("alias") then some ⟨strOf ("alias"), sub.aliasV⟩
    else
      match pyInt sv with
      | none => none
      | some n => pyIdx sub.identifiers (n - 1)

/-- The shared `i = args and args[0] or '1'` default-subscript idiom of the
calc functions. -/
def defaultSub (args : List CalcArg) : CalcArg :=
  match args with
  | [] => CalcArg.s (strOf ("1"))
  | a :: _ => if truthyArg a then a else CalcArg.s (strOf ("1"))

/-- alias.py `DIGITS` (the set literal of `func_digits`). -/
def DIGITS_SET : Str := strOf ("1234567890")

/-- alias.py `ALPHAS` — note: the lowercase letters only. -/
def ALPHAS_SET : Str := strOf ("abcdefghijklmnopqrstuvwxyz")

/-- alias.py `VOWELS`. -/
def VOWELS_SET : Str := strOf ("aeiou")

/-- alias.py `func_digits`. -/
def func_digits (code : Str) (args : List CalcArg) (sub : Subscriptable) : Option Str :=
  let _ := code
  (subGet sub (defaultSub args)).map (fun id => natDec (id.value.countP (· ∈ DIGITS_SET)))

/-- alias.py `func_alphas`: counts membership in the lowercase set. -/
def func_alphas (code : Str) (args : List CalcArg) (sub : Subscriptable) : Option Str :=
  let _ := code
  (subGet sub (defaultSub args)).map (fun id => natDec (id.value.countP (· ∈ ALPHAS_SET)))

/-- alias.py `func_labels`: only valid for fqdn identifiers. -/
def func_labels (code : Str) (args : List CalcArg) (sub : Subscriptable) : Option Str :=
  let _ := code
  (subGet sub (defaultSub args)).bind (fun id =>
    if id.type ≠ strOf ("fqdn") then none
    else some (natDec (pySplitC id.value '.').length))

/-- alias.py `func_chars`. -/
def func_chars (code : Str) (args : List CalcArg) (sub : Subscriptable) : Option Str :=
  let _ := code
  (subGet sub (defaultSub args)).map (fun id => natDec id.value.length)

/-- alias.py `func_vowels`. -/
def func_vowels (code : Str) (args : List CalcArg) (sub : Subscriptable) : Option Str :=
  let _ := code
  (subGet sub (defaultSub args)).map (fun id => natDec (id.value.countP (· ∈ VOWELS_SET)))

/-- alias.py `func_any`: the first character of the remaining code if it
occurs in the identifier, else `None`. -/
def func_any (code : Str) (args : List CalcArg) (sub : Subscriptable) : Option Str :=
  (subGet sub (defaultSub args)).bind (fun id =>
    match code with
    | [] => none
    | c :: _ => if c ∈ id.value then some [c] else none)

/-- alias.py `func_none`. -/
def func_none (code : Str) (args : List CalcArg) (sub : Subscriptable) : Option Str :=
  (subGet sub (defaultSub args)).bind (fun id =>
    match code with
    | [] => none
    | c :: _ => if c ∉ id.value then some [c] else none)

/-- alias.py `func_char`.  Argument consumption follows the
`TestableIterator` of the source: an explicit identifier subscript is
taken when four arguments are present, or when three are present and
there is more than one identifier or the sole identifier is not an fqdn;
for fqdn identifiers the next argument is the label index (`0` when
falsy); then come the character offset and the default.  Exhausted or
ill-typed integer positions raise, embedded as `none`. -/
def func_char (code : Str) (args : List CalcArg) (sub : Subscriptable) : Option Str :=
  let _ := code
  let n := args.length
  let takeI : Bool :=
    decide (n = 4) ||
      (decide (n = 3) &&
        (decide (sub.identifiers.length ≠ 1) ||
          (match subGet sub (CalcArg.s (strOf ("1"))) with
           | some id0 => decide (id0.type ≠ strOf ("fqdn"))
           | none => true)))
  let (iArg, p1) : CalcArg × Nat :=
    if takeI then (args.headD (CalcArg.s []), 1) else (CalcArg.s (strOf ("1")), 0)
  match subGet sub iArg with
  | none => none
  | some identI =>
    let isF : Bool := decide (identI.type = strOf ("fqdn"))
    let (labelArg, p2) : CalcArg × Nat :=
      if isF then
        (match args.get? p1 with
         | some v => (if truthyArg v then v else CalcArg.i 0, p1 + 1)
         | none => (CalcArg.s (strOf ("?")), p1 + 1))
      else (CalcArg.i 0, p1)
    let charArg := args.get? p2
    let defaultArg := args.get? (p2 + 1)
    let defaultVal : Option Str :=
      match defaultArg with
      | some (CalcArg.s v) => some v
      | _ => none
    -- fqdn label selection, written out with the early `return default`:
    match (if isF then argAsInt labelArg else some 0) with
    | none => none
    | some lab =>
      if isF ∧ (pySplitC identI.value '.').length < lab.natAbs then defaultVal
      else
        let ident2 : Option Str :=
          if isF then
            pyIdx (pySplitC identI.value '.') (if 0 < lab then lab - 1 else lab)
          else some identI.value
        match ident2 with
        | none => none
        | some idv =>
          match charArg with
          | none => none
          | some ca =>
            match argAsInt ca with
            | none => none
            | some ch =>
              if idv.length < ch.natAbs then defaultVal
              else (pyIdx idv (if 0 < ch then ch - 1 else ch)).map (fun c => [c])

/-- `CalcExpression.FUNCS` dispatch. -/
def evalFunc (c : Calc) (code : Str) (sub : Subscriptable) : Option Str :=
  if c.func = strOf ("DIGITS") then func_digits code c.args sub
  else if c.func = strOf ("ALPHAS") then func_alphas code c.args sub
  else if c.func = strOf ("LABELS") then func_labels code c.args sub
  else if c.func = strOf ("CHARS") then func_chars code c.args sub
  else if c.func = strOf ("VOWELS") then func_vowels code c.args sub
  else if c.func = strOf ("ANY") then func_any code c.args sub
  else if c.func = strOf ("NONE") then func_none code c.args sub
  else if c.func = strOf ("CHAR") then func_char code c.args sub
  else none

/-- The consuming loop of `CalcExpression.calculate`: left to right over
the calcs, requiring a truthy function value that is a prefix of the
remaining code; returns the collected values and the remaining code. -/
def calcRun (sub : Subscriptable) : List Calc → Str → Option (List Str × Str)
  | [], code => some ([], code)
  | c :: rest, code =>
    if code.isEmpty then none
    else
      match evalFunc c code sub with
      | none => none
      | some fv =>
        if fv.isEmpty then none
        else if fv.isPrefixOf code then
          match calcRun sub rest (code.drop fv.length) with
          | none => none
          | some (rs, rem) => some (fv :: rs, rem)
        else none

/-- alias.py `CalcExpression.calculate`: `False` is `none`, the built code
string is `some` (note the built string of an empty calc list is the empty
string, which is falsy). -/
def calculate (calcs : List Calc) (code : Identifier) (identifiers : List Identifier)
    (account aliasS : Str) : Option Str :=
  match calcRun ⟨identifiers, account, aliasS⟩ calcs code.value with
  | none => none
  | some (rs, rem) => if rem.isEmpty then some rs.flatten else none

/-! ## alias.py `MatchExpression.match`, `Alias.match`; lookup.py `find` -/

/-- alias.py `MatchInfo`. -/
structure MatchInfo where
  delivery_account : Str
  built_match : List Identifier
  ambiguous : Bool
deriving DecidableEq

/-- The verified-candidates filter of `MatchExpression.match`: for each
unpacked candidate with a code, keep the identifiers whose calc
verification succeeds (a candidate without a code is logged and
skipped). -/
def verifiedOf (calcs : List Calc) (matched : IdentList) (account aliasS : Str) :
    List (List Identifier) :=
  (unpack matched).filterMap (fun p =>
    match p.1 with
    | none => none
    | some codeId =>
      if pyTruthyO (calculate calcs codeId p.2 account aliasS) then some p.2 else none)

/-- alias.py `MatchExpression.match`: the quick raw-sketch test, then the
account × alias substitution loop, collecting one `MatchInfo` per
combination that verifies. -/
def matchexMatch (sk : List Elem) (calcs : List Calc) (accounts aliases : List Str)
    (address : Str) : List MatchInfo :=
  if (matchSketch address sk 0).isEmpty then []
  else
    (if accounts.isEmpty then [[]] else accounts).flatMap (fun account =>
      (if aliases.isEmpty then [[]] else aliases).flatMap (fun aliasS =>
        let matched := matchSketch address (substSketch account aliasS sk) 0
        if matched.isEmpty then []
        else
          let verified := verifiedOf calcs matched account aliasS
          match verified with
          | [] => []
          | v :: _ => [⟨account, v, decide (1 < verified.length)⟩]))

/-- alias.py `SpecMatch` (the spec back-reference is not needed by
`lookup.find`, which only inspects the matches). -/
structure SpecMatch where
  minfos : List MatchInfo
deriving DecidableEq

/-- `SpecMatch.ambiguous`. -/
def smAmbiguous (sm : SpecMatch) : Bool :=
  decide (1 < sm.minfos.length) || sm.minfos.any (·.ambiguous)

/-- `SpecMatch.delivery_account`: `None` when the matches name more than
one distinct account, otherwise the single account (the Python
`set.pop()` on an empty set cannot occur: `SpecMatch`es are only built
from a nonempty match list). -/
def smDelivery (sm : SpecMatch) : Option Str :=
  let accts := dedupF (sm.minfos.map (·.delivery_account))
  if 1 < accts.length then none else accts.head?

/-- A compiled match expression (alias.py `MatchExpression` state after
the `expression` setter ran). -/
structure MatchexC where
  src : Str
  tokens : List Str
  idCount : Nat
  fqdns : List Nat
  lineNo : Nat
deriving DecidableEq

/-- An alias specification (alias.py `Alias`); `sketch` is filled in by
`Alias.semantic_check` → `build_sketch`. -/
structure Spec where
  accounts : List Str
  aliases : List Str
  matchex : MatchexC
  calcs : List Calc
  sketch : Option (List Elem)
deriving DecidableEq

/-- alias.py `Alias.match`: wrap a nonempty match list into one
`SpecMatch`. -/
def aliasMatch (sp : Spec) (name : Str) : List SpecMatch :=
  match sp.sketch with
  | none => []
  | some sk =>
    let ms := matchexMatch sk sp.calcs sp.accounts sp.aliases name
    if ms.isEmpty then [] else [⟨ms⟩]

/-- The configuration contents relevant to resolving (config.py
`Configuration` with config_base.py `DEFAULT_CONFIG` fields). -/
structure Configuration where
  host : Str
  port : Nat
  logLevel : Nat
  debug_account : Option Str
  statistics : Option Nat
  aliases : List Spec
deriving DecidableEq

/-- config_base.py `DEFAULT_CONFIG()`. -/
def defaultConfig : Configuration :=
  ⟨strOf ("127.0.0.1"), 3047, 30, none, none, []⟩

/-- lookup.py `find`: the per-spec matches of the whole configuration. -/
def collectMatches (name : Str) (config : Configuration) : List SpecMatch :=
  config.aliases.flatMap (fun sp => aliasMatch sp name)

/-- The body of `find`'s aggregation loop: one step over a `SpecMatch`
(the state is the pair `ambiguous`, `delivery_account`, the latter a
`str`-or-`None` that starts as the empty string). -/
def findStep (st : Bool × Option Str) (m : SpecMatch) : Bool × Option Str :=
  let amb := st.1 || smAmbiguous m
  let account := smDelivery m
  let da1 : Option Str :=
    if account.isNone || (pyTruthyO st.2 && decide (st.2 ≠ account)) then none else st.2
  let da2 : Option Str :=
    if !pyTruthyO da1 && da1.isSome then account else da1
  (amb, da2)

/-- lookup.py `find`: empty string on no match; the single delivery
account when the aggregation keeps one; otherwise the configured debug
account (which is `None` when unset). -/
def find (name : Str) (config : Configuration) : Option Str :=
  let ms := collectMatches name config
  if ms.isEmpty then some []
  else
    let st := ms.foldl findStep (false, some [])
    if pyTruthyO st.2 then st.2 else config.debug_account

/-! ## alias.py `MatchExpression.expression` (compilation) and
`CalcExpression.semantic_check`; config.py maps, uniqueness and load -/

/-- A semantic/parse error of the configuration layer, carrying the
offending source line. -/
structure SemErr where
  reason : String
  lineNo : Nat
deriving DecidableEq

deriving instance DecidableEq for Except

/-- The names of all matchers (`MatchExpression.ALL_MATCHERS`). -/
def ALL_MATCHER_NAMES : List Str :=
  IDENT_MATCHER_NAMES ++ [strOf ("account"), strOf ("alias"), strOf ("code")]

/-- `MatchExpression.FRIENDLIES`. -/
def FRIENDLY_NAMES : List Str := [strOf ("alpha"), strOf ("number")]

/-- The token loop of the `MatchExpression.expression` setter: `rem` is
the remaining `value.split('%')` pieces, `k` the (0-based) index of the
head of `rem` in the full split, `outside` the parity flag before its
toggle, `state` the adjacency state (`''`, a friendly name, or
`'poison'`). -/
def compileGo (lineNo : Nat) :
    List Str → Nat → Bool → Str → List Str → Nat → List Nat →
    Except SemErr (List Str × Nat × List Nat)
  | [], _, _, _, toks, ids, fq => Except.ok (toks, ids, fq)
  | tok :: rest, k, outside, state, toks, ids, fq =>
    let outside1 := !outside
    if outside1 then
      let toks1 :=
        if tok.isEmpty ∧ 2 < (tok :: rest).length ∧ (tok :: rest).get? 2 = some [] then
          toks ++ [strOf ("%")]
        else toks ++ [tok]
      let state1 := if ¬tok.isEmpty then [] else state
      compileGo lineNo rest (k + 1) outside1 state1 toks1 ids fq
    else
      if tok.isEmpty then
        -- `if i > 0 and not input_tokens[i-1]: continue` — `i-1` is the
        -- current token's own index, so this always continues here.
        if 0 < k + 1 then compileGo lineNo rest (k + 1) outside1 state toks ids fq
        else Except.error ⟨"Empty matchvalue.", lineNo⟩
      else if tok ∉ ALL_MATCHER_NAMES then
        Except.error ⟨"Unrecognized matchvalue.", lineNo⟩
      else if state = strOf ("poison") then
        Except.error ⟨"Cannot occur next to any other matcher.", lineNo⟩
      else
        let friendly := tok ∈ FRIENDLY_NAMES
        if friendly ∧ tok = state then
          Except.error ⟨"Cannot occur next to itself.", lineNo⟩
        else if ¬friendly ∧ state ∈ FRIENDLY_NAMES then
          Except.error ⟨"Cannot occur next to any other matcher.", lineNo⟩
        else
          let state1 := if friendly then tok else strOf ("poison")
          let isIdent := tok ∈ IDENT_MATCHER_NAMES
          let ids1 := if isIdent then ids + 1 else ids
          let fq1 := if isIdent ∧ tok = strOf ("fqdn") then fq ++ [ids + 1] else fq
          compileGo lineNo rest (k + 1) outside1 state1 (toks ++ [tok]) ids1 fq1

/-- The `MatchExpression.expression` setter: split on `%`, validate the
matcher names and the adjacency discipline, count identifiers and record
fqdn positions. -/
def compileExpr (value : Str) (lineNo : Nat) : Except SemErr MatchexC :=
  match compileGo lineNo (pySplitC value '%') 0 false [] [] 0 [] with
  | Except.error e => Except.error e
  | Except.ok (toks, ids, fq) => Except.ok ⟨value, toks, ids, fq, lineNo⟩

/-- `Subscriptable.NONINTEGER_PARAM_VALUES`. -/
def NONINTEGER_PARAM_VALUES : List Str := [strOf ("account"), strOf ("alias")]

/-- `int(arg)` at semantic-check time, where an unparsable value yields
`-1` (`except ValueError: i_ident = -1`). -/
def pyIntDefNeg (a : CalcArg) : Int :=
  match a with
  | CalcArg.i n => n
  | CalcArg.s v => (pyInt v).getD (-1)

/-- The string contents of a check-time argument (the parser only
produces strings; an integer cannot occur before preconversion). -/
def argLower (a : CalcArg) : Str :=
  match a with
  | CalcArg.s v => pyLowerS v
  | CalcArg.i _ => []

/-- `int(...)` for the preconversion step: succeeds on integers and on
numeric strings. -/
def argToInt (a : CalcArg) : Option Int :=
  match a with
  | CalcArg.i n => some n
  | CalcArg.s v => pyInt v

/-- The shared index-argument validation of `semantic_check` for a single
(non-`CHAR`-label) argument: not `account`/`alias` → must be an integer
in `[1, n_identifiers]`; `alias` may only appear when the spec has
aliases.  Returns the error, if any. -/
def checkIndexArg (a : CalcArg) (nIdents : Nat) (hasAliases : Bool) (lineNo : Nat) :
    Option SemErr :=
  if argLower a ∉ NONINTEGER_PARAM_VALUES then
    let i := pyIntDefNeg a
    if i < 1 ∨ (nIdents : Int) < i then some ⟨"index out of range", lineNo⟩ else none
  else if argLower a = strOf ("alias") ∧ ¬hasAliases then
    some ⟨"alias referenced but no aliases present", lineNo⟩
  else none

/-- The preconversion tail of the `CHAR` branch of `semantic_check`:
`calc[-2] = int(calc[-2])` and possibly `calc[-3] = int(calc[-3])` on the
combined `[func] + args` list (so that with two arguments, `calc[-3]` is
the function name itself and the conversion fails). -/
def preconvChar (c : Calc) (convThird : Bool) (lineNo : Nat) : Except SemErr Calc :=
  let combined := CalcArg.s c.func :: c.args
  let n := combined.length
  match combined.get? (n - 2) with
  | none => Except.error ⟨"invalid label or character index", lineNo⟩
  | some a2 =>
    match argToInt a2 with
    | none => Except.error ⟨"invalid label or character index", lineNo⟩
    | some v2 =>
      let combined2 := combined.set (n - 2) (CalcArg.i v2)
      if convThird then
        match combined2.get? (n - 3) with
        | none => Except.error ⟨"invalid label or character index", lineNo⟩
        | some a3 =>
          match argToInt a3 with
          | none => Except.error ⟨"invalid label or character index", lineNo⟩
          | some v3 =>
            let combined3 := combined2.set (n - 3) (CalcArg.i v3)
            Except.ok ⟨c.func, combined3.tail⟩
      else Except.ok ⟨c.func, combined2.tail⟩

/-- alias.py `CalcExpression.semantic_check` for one calc call, returning
the calc with the preconverted arguments.  A faithful transcription of
the `CHAR` / non-`CHAR` branches. -/
def semCheckCalc (c : Calc) (nIdents : Nat) (fqdns : List Nat) (hasAliases : Bool)
    (lineNo : Nat) : Except SemErr Calc :=
  let args := c.args
  let needsSub := 1 < nIdents
  if c.func = strOf ("CHAR") then
    if 4 < args.length then Except.error ⟨"CHAR requires at most 4 arguments", lineNo⟩
    else if needsSub then
      if args.length < 3 then
        Except.error ⟨"CHAR requires an identifier subscript", lineNo⟩
      else if args.length = 4 then
        let i := pyIntDefNeg (args.headD (CalcArg.s []))
        if (i < 0 ∨ i.toNat ∉ fqdns) then
          Except.error ⟨"CHAR index does not reference an fqdn", lineNo⟩
        else preconvChar c true lineNo
      else
        match args.head? with
        | none => preconvChar c false lineNo
        | some a0 =>
          if argLower a0 ∉ NONINTEGER_PARAM_VALUES then
            let i := pyIntDefNeg a0
            if i < 1 ∨ (nIdents : Int) < i then
              Except.error ⟨"CHAR index out of range", lineNo⟩
            else if 0 < i ∧ i.toNat ∈ fqdns then
              Except.error ⟨"CHAR index references an fqdn and needs a label index", lineNo⟩
            else preconvChar c false lineNo
          else if argLower a0 = strOf ("alias") ∧ ¬hasAliases then
            Except.error ⟨"alias referenced but no aliases present", lineNo⟩
          else preconvChar c false lineNo
    else
      if args.length < 2 then
        Except.error ⟨"CHAR requires at least 2 arguments", lineNo⟩
      else if 1 ∈ fqdns then
        match pyIdx args ((args.length : Int) - 3) with
        | none => Except.error ⟨"CHAR requires numeric label index", lineNo⟩
        | some aL =>
          if (argToInt aL).isNone then
            Except.error ⟨"CHAR requires numeric label index", lineNo⟩
          else if args.length = 4 then
            let i := pyIntDefNeg (args.headD (CalcArg.s []))
            if i ≠ 1 then Except.error ⟨"CHAR requires index of 1", lineNo⟩
            else preconvChar c true lineNo
          else preconvChar c true lineNo
      else
        if args.length = 4 then
          Except.error ⟨"CHAR must not have a label argument", lineNo⟩
        else if args.length = 3 then
          match args.head? with
          | none => preconvChar c false lineNo
          | some a0 =>
            match checkIndexArg a0 nIdents hasAliases lineNo with
            | some e => Except.error e
            | none => preconvChar c false lineNo
        else preconvChar c false lineNo
  else
    if 1 < args.length then
      Except.error ⟨"requires at most 1 argument", lineNo⟩
    else if needsSub ∧ args.length < 1 then
      Except.error ⟨"requires an identifier subscript", lineNo⟩
    else
      match args.head? with
      | none => Except.ok c
      | some a0 =>
        match checkIndexArg a0 nIdents hasAliases lineNo with
        | some e => Except.error e
        | none => Except.ok c

/-- `CalcExpression.semantic_check` over the whole calc list (first error
wins; the preconverted calcs replace the originals in place). -/
def semCheckCalcs (calcs : List Calc) (nIdents : Nat) (fqdns : List Nat)
    (hasAliases : Bool) (lineNo : Nat) : Except SemErr (List Calc) :=
  match calcs with
  | [] => Except.ok []
  | c :: rest =>
    match semCheckCalc c nIdents fqdns hasAliases lineNo with
    | Except.error e => Except.error e
    | Except.ok c1 =>
      match semCheckCalcs rest nIdents fqdns hasAliases lineNo with
      | Except.error e => Except.error e
      | Except.ok rest1 => Except.ok (c1 :: rest1)

/-- The ident matcher's character sets
(`IDENT_MATCHERS['ident'] = Matcher(MATCH_IDENT, MATCH_IDENT|{'-'}, MATCH_IDENT)`). -/
def identCS : CharSets := ⟨MATCH_IDENT, MATCH_IDENT ++ strOf ("-"), MATCH_IDENT⟩

/-- The fqdn matcher's character sets
(`Matcher(MATCH_IDENT, MATCH_FQDN, MATCH_IDENT)`). -/
def fqdnCS : CharSets := ⟨MATCH_IDENT, MATCH_FQDN, MATCH_IDENT⟩

/-- `MatchExpression.ALL_MATCHERS` by name; `account` and `alias` are
copies of the (default) `ident` matcher installed by the
`account_matcher` setter. -/
def getMatcherByName (tok : Str) : Option MatcherK :=
  if tok = strOf ("alnum") then some (MatcherK.plain tok ⟨MATCH_ALNUM, MATCH_ALNUM, MATCH_ALNUM⟩)
  else if tok = strOf ("alpha") then some (MatcherK.plain tok ⟨MATCH_ALPHA, MATCH_ALPHA, MATCH_ALPHA⟩)
  else if tok = strOf ("number") then
    some (MatcherK.plain tok ⟨MATCH_NUMBER, MATCH_NUMBER, MATCH_NUMBER⟩)
  else if tok = strOf ("ident") then some (MatcherK.plain tok identCS)
  else if tok = strOf ("fqdn") then some (MatcherK.plain tok fqdnCS)
  else if tok = strOf ("account") then some (MatcherK.plain tok identCS)
  else if tok = strOf ("alias") then some (MatcherK.plain tok identCS)
  else none

/-- `MatchExpression.MATCH_ANY_CHAR`. -/
def MATCH_ANY_CHAR : List Str := [strOf ("ANY"), strOf ("NONE"), strOf ("CHAR")]

/-- alias.py `MatchExpression.build_sketch`: literals at even token
positions, matchers at odd positions, the `code` matcher built from the
calc shapes.  A token misaligned by `%%` escapes would raise a
`KeyError`, embedded as `none`. -/
def buildSketchGo (calcs : List Calc) : List Str → Bool → Option (List Elem)
  | [], _ => some []
  | tok :: rest, outside =>
    let outside1 := !outside
    if outside1 then
      (buildSketchGo calcs rest outside1).map (fun s => Elem.lit tok :: s)
    else if tok ≠ strOf ("code") then
      match getMatcherByName tok with
      | none => none
      | some mk => (buildSketchGo calcs rest outside1).map (fun s => Elem.mat mk :: s)
    else
      let shapes := calcs.map (fun c =>
        if c.func ∈ MATCH_ANY_CHAR then CodeShape.anyS else CodeShape.numberS)
      (buildSketchGo calcs rest outside1).map
        (fun s => Elem.mat (MatcherK.codeM (strOf ("code")) shapes) :: s)

/-- `build_sketch` at its entry point. -/
def buildSketch (tokens : List Str) (calcs : List Calc) : Option (List Elem) :=
  buildSketchGo calcs tokens false

/-- alias.py `Alias.semantic_check`: check the calc against the match
expression, then build the sketch.  The outer `Option` is a crash
(`KeyError`) that the loader would not catch. -/
def aliasSemCheck (sp : Spec) : Option (Except SemErr Spec) :=
  match semCheckCalcs sp.calcs sp.matchex.idCount sp.matchex.fqdns
      (!sp.aliases.isEmpty) sp.matchex.lineNo with
  | Except.error e => some (Except.error e)
  | Except.ok calcs1 =>
    match buildSketch sp.matchex.tokens calcs1 with
    | none => none
    | some sk => some (Except.ok { sp with calcs := calcs1, sketch := some sk })

/-- config.py `Configuration.semantic_check` over all specs. -/
def semanticCheckAll : List Spec → Option (Except SemErr (List Spec))
  | [] => some (Except.ok [])
  | sp :: rest =>
    match aliasSemCheck sp with
    | none => none
    | some (Except.error e) => some (Except.error e)
    | some (Except.ok sp1) =>
      match semanticCheckAll rest with
      | none => none
      | some (Except.error e) => some (Except.error e)
      | some (Except.ok rest1) => some (Except.ok (sp1 :: rest1))

/-! ### config.py `build_maps` and `enforce_uniqueness` -/

/-- The number of specs sharing a match-expression source string
(`build_maps`' `expressions` counter). -/
def specExprCount (specs : List Spec) (e : Str) : Nat :=
  (specs.filter (fun sp => sp.matchex.src = e)).length

/-- The `unique` flag `build_maps` assigns to a spec's match expression. -/
def isUniqueExpr (specs : List Spec) (sp : Spec) : Bool :=
  specExprCount specs sp.matchex.src = 1

/-- The keys of `self.accounts` in insertion order. -/
def accountKeys (specs : List Spec) : List Str :=
  dedupF (specs.flatMap (·.accounts))

/-- `self.accounts[a]`: the specs declaring account `a`, in declaration
order (with multiplicity, as in the source's repeated `append`). -/
def specsOfAccount (specs : List Spec) (a : Str) : List Spec :=
  specs.flatMap (fun sp => (sp.accounts.filter (· = a)).map (fun _ => sp))

/-- The keys of `self.aliases` in insertion order. -/
def aliasKeys (specs : List Spec) : List Str :=
  dedupF (specs.flatMap (·.aliases))

/-- `self.aliases[al]`. -/
def specsOfAlias (specs : List Spec) (al : Str) : List Spec :=
  specs.flatMap (fun sp => (sp.aliases.filter (· = al)).map (fun _ => sp))

/-- `self.alias_accounts[al]` (`associated_accounts`): the set of accounts
of the specs declaring alias `al`, as a first-occurrence list. -/
def aliasAccounts (specs : List Spec) (al : Str) : List Str :=
  dedupF ((specsOfAlias specs al).flatMap (·.accounts))

/-- `Configuration.associated_aliases(account)`: the set of aliases over
the specs of an account, as a first-occurrence list. -/
def assocAliases (specs : List Spec) (a : Str) : List Str :=
  dedupF ((specsOfAccount specs a).flatMap (·.aliases))

/-- The body of `enforce_uniqueness` for one (account, spec) pair: the
"no aliases", "uniquely paired alias" and "many aliases" branches.  The
source picks `tuple(associated_aliases)[0]` — an arbitrary set element —
in the latter two branches; the embedding picks the first-occurrence
element (the theorems below only rely on this when the set has exactly
one element). -/
def checkAccountSpec (specs : List Spec) (a : Str) (sp : Spec) : Except SemErr Unit :=
  let assoc := assocAliases specs a
  if assoc.isEmpty then
    if strOf ("account") ∈ sp.matchex.tokens ∨ isUniqueExpr specs sp then Except.ok ()
    else Except.error ⟨"Ambiguous because the account is not present and expression not unique",
      sp.matchex.lineNo⟩
  else if assoc.length = 1 ∧ (aliasAccounts specs (assoc.headD [])).length = 1 then
    if strOf ("account") ∈ sp.matchex.tokens ∨ strOf ("alias") ∈ sp.matchex.tokens ∨
        isUniqueExpr specs sp then Except.ok ()
    else Except.error ⟨"Ambiguous because neither account or alias is present and expression not unique",
      sp.matchex.lineNo⟩
  else
    -- `for alias in associated_aliases:` — the loop condition only looks
    -- at `associated_aliases[0]`, so it is constant over the loop.
    if assoc.all (fun _ =>
        if (aliasAccounts specs (assoc.headD [])).length = 1 then
          strOf ("alias") ∈ sp.matchex.tokens ∨ sp.aliases.isEmpty
        else true) then Except.ok ()
    else Except.error ⟨"Ambiguous because alias is not present", sp.matchex.lineNo⟩

/-- First-error sequencing over a list of checks. -/
def firstErrP {α : Type} (f : α → Except SemErr Unit) : List α → Except SemErr Unit
  | [] => Except.ok ()
  | x :: xs =>
    match f x with
    | Except.error e => Except.error e
    | Except.ok _ => firstErrP f xs

/-- The alias section of `enforce_uniqueness`: every spec of an alias
used by two or more accounts must reference both `account` and `alias`. -/
def checkAliasSection (specs : List Spec) : Except SemErr Unit :=
  firstErrP
    (fun al =>
      if (aliasAccounts specs al).length < 2 then Except.ok ()
      else
        firstErrP
          (fun sp =>
            if strOf ("account") ∈ sp.matchex.tokens ∧ strOf ("alias") ∈ sp.matchex.tokens
            then Except.ok ()
            else Except.error ⟨"Ambiguous because account and alias are not present",
              sp.matchex.lineNo⟩)
          (specsOfAlias specs al))
    (aliasKeys specs)

/-- The (account, spec) pairs `enforce_uniqueness` iterates over. -/
def accountSpecPairs (specs : List Spec) : List (Str × Spec) :=
  (accountKeys specs).flatMap (fun a => (specsOfAccount specs a).map (fun sp => (a, sp)))

/-- config.py `Configuration.enforce_uniqueness`. -/
def enforceUniqueness (specs : List Spec) : Except SemErr Unit :=
  match firstErrP (fun p => checkAccountSpec specs p.1 p.2) (accountSpecPairs specs) with
  | Except.error e => Except.error e
  | Except.ok _ => checkAliasSection specs

/-! ### config.py `update_config` and `load` -/

/-- The configuration dictionary produced by a successful
`StreamParsingLoader.load()`: scalar settings that were present in the
text, plus the parsed alias specs (whose match expressions are already
compiled — the expression setter runs during parsing). -/
structure RawParsed where
  host : Option Str
  port : Option Nat
  logLevel : Option Nat
  debug_account : Option Str
  statistics : Option (Option Nat)
  aliases : List Spec
deriving DecidableEq

/-- A configuration-layer error (parse errors and matchex-compile errors
arise inside `loader.load()`, semantic/uniqueness errors after it). -/
inductive CfgErr where
  | parseE (lineNo : Nat)
  | semanticE (e : SemErr)
deriving DecidableEq

/-- config.py `Configuration.update_config`: `dict.update` with the new
keys (the aliases key is always present in a parsed config). -/
def updateConfig (c : Configuration) (r : RawParsed) : Configuration :=
  { host := r.host.getD c.host
    port := r.port.getD c.port
    logLevel := r.logLevel.getD c.logLevel
    debug_account := match r.debug_account with
      | some v => some v
      | none => c.debug_account
    statistics := match r.statistics with
      | some v => v
      | none => c.statistics
    aliases := r.aliases }

/-- The outcome of `Configuration.load`: an exception propagated to the
caller (strict mode), or the resulting configuration together with the
logged error, if any. -/
inductive LoadOut where
  | raised (e : CfgErr)
  | done (c : Configuration) (err : Option CfgErr)
deriving DecidableEq

/-- config.py `Configuration.load`, with the loader's work abstracted as
its result (`Except` of the parsed configuration).  After a successful
parse the configuration is updated **in place** before the semantic /
uniqueness checks run; a failure of those checks therefore leaves the
updated configuration behind.  (In the source, the specs of a
configuration that failed the semantic check may additionally carry
partially preconverted calc arguments; no theorem below depends on
that.)  The outer `Option` is an uncaught crash. -/
def loadConf (prev : Configuration) (loaded : Except CfgErr RawParsed)
    (raiseOnError : Bool) : Option LoadOut :=
  match loaded with
  | Except.error e =>
    some (if raiseOnError then LoadOut.raised e else LoadOut.done prev (some e))
  | Except.ok raw =>
    let c1 := updateConfig prev raw
    match semanticCheckAll c1.aliases with
    | none => none
    | some (Except.error e) =>
      some (if raiseOnError then LoadOut.raised (CfgErr.semanticE e)
        else LoadOut.done c1 (some (CfgErr.semanticE e)))
    | some (Except.ok specs2) =>
      let c2 := { c1 with aliases := specs2 }
      match enforceUniqueness specs2 with
      | Except.error e =>
        some (if raiseOnError then LoadOut.raised (CfgErr.semanticE e)
          else LoadOut.done c2 (some (CfgErr.semanticE e)))
      | Except.ok _ => some (LoadOut.done c2 none)

/-! ## milter.py: acknowledgement policy and recipient classification -/

/-- milter.py `SMFIP_NR_HDR`. -/
def SMFIP_NR_HDR : Nat := 0x000080

/-- milter.py `SMFIP_NR_CONN`. -/
def SMFIP_NR_CONN : Nat := 0x001000

/-- milter.py `SMFIP_NR_HELO`. -/
def SMFIP_NR_HELO : Nat := 0x002000

/-- milter.py `SMFIP_NR_MAIL`. -/
def SMFIP_NR_MAIL : Nat := 0x004000

/-- milter.py `SMFIP_NR_RCPT`. -/
def SMFIP_NR_RCPT : Nat := 0x008000

/-- milter.py `SMFIP_NR_DATA`. -/
def SMFIP_NR_DATA : Nat := 0x010000

/-- milter.py `SMFIP_NR_UNKN`. -/
def SMFIP_NR_UNKN : Nat := 0x020000

/-- milter.py `SMFIP_NR_EOH`. -/
def SMFIP_NR_EOH : Nat := 0x040000

/-- milter.py `SMFIP_NR_BODY`. -/
def SMFIP_NR_BODY : Nat := 0x080000

/-- milter.py `SMFIC_TO_SMFIP`: built with
`dict(SMFIC_HEADER = SMFIP_NR_HDR, …)`, whose keys are the **keyword
names** (`'SMFIC_HEADER'`, …) — not the one-character command codes the
variables of those names hold. -/
def SMFIC_TO_SMFIP : List (Str × Nat) :=
  [(strOf ("SMFIC_HEADER"), SMFIP_NR_HDR),
   (strOf ("SMFIC_CONNECT"), SMFIP_NR_CONN),
   (strOf ("SMFIC_HELO"), SMFIP_NR_HELO),
   (strOf ("SMFIC_MAIL"), SMFIP_NR_MAIL),
   (strOf ("SMFIC_RCPT"), SMFIP_NR_RCPT),
   (strOf ("SMFIC_DATA"), SMFIP_NR_DATA),
   (strOf ("SMFIC_UNKNOWN"), SMFIP_NR_UNKN),
   (strOf ("SMFIC_EOH"), SMFIP_NR_EOH),
   (strOf ("SMFIC_BODY"), SMFIP_NR_BODY)]

/-- Lookup in the embedded dict. -/
def lookupPairs (l : List (Str × Nat)) (k : Str) : Option Nat :=
  match l with
  | [] => none
  | p :: rest => if p.1 = k then some p.2 else lookupPairs rest k

/-- `MilterServer.SMFIC_CONTEXT_RESET` (`{'A', 'E', 'Q', 'K'}`). -/
def SMFIC_CONTEXT_RESET : List Str :=
  [strOf ("A"), strOf ("E"), strOf ("Q"), strOf ("K")]

/-- The tail of `MilterServer.service_requests` for a command other than
`O` (option negotiation), `R` (RCPT) and `E` (EOB): the context-reset
check, then the acknowledgement branch
`elif cmd in SMFIC_TO_SMFIP and not negotiated & SMFIC_TO_SMFIP[cmd]`.
Returns the action codes written for that command. -/
def serviceAck (negotiated : Nat) (cmd : Str) : List Str :=
  if cmd ∈ SMFIC_CONTEXT_RESET then []
  else
    match lookupPairs SMFIC_TO_SMFIP cmd with
    | some bit => if negotiated &&& bit = 0 then [strOf ("c")] else []
    | none => []

/-- milter.py `Recipient.__init__`:
`rcpt[rcpt.find('<')+1 : rcpt.rfind('>')].split('@')`. -/
def recipientParsed (rcpt : Str) : List Str :=
  pySplitC (pySlice rcpt (pyFindC rcpt '<' + 1) (pyRFindC rcpt '>')) '@'

/-- milter.py `Recipient.domain`: the stripped last `@`-piece; an empty
domain raises `NoDomainNameException` (embedded as `none`, and uncaught
in the RCPT loop). -/
def recipientDomain (rcpt : Str) : Option Str :=
  match (recipientParsed rcpt).getLast? with
  | none => none
  | some f =>
    let d := pyStrip f
    if d.isEmpty then none else some d

/-- The local-delivery test of the RCPT branch of
`MilterServer.service_requests`: the configured domain set is lowercased
in `__init__` and the parsed domain is lowercased at the comparison.
`some true` means the recipient is treated as local delivery, `some
false` pass-through; `none` is the (uncaught) empty-domain exception. -/
def rcptIsLocal (rcpt : Str) (domains : List Str) : Option Bool :=
  (recipientDomain rcpt).map (fun d => pyLowerS d ∈ domains.map pyLowerS)

/-! ## Specification-side definitions

The following definitions transcribe the specification's wording (not the
code); they exist to be compared against the embedded code above. -/

/-- Modelled from the spec (§4.4): "evaluate the calc expression left to
right over a working string `s = code_value`.  For each calc compute a
string `v` and require `s` to start with `v`; set `s := s[|v|..]`.
Succeed iff all calcs consume and `s` is empty."  (The values computed by
the calc functions themselves are those of the code, `evalFunc`.) -/
def specConsume (sub : Subscriptable) : List Calc → Str → Bool
  | [], code => code.isEmpty
  | c :: rest, code =>
    match evalFunc c code sub with
    | none => false
    | some fv => fv.isPrefixOf code && specConsume sub rest (code.drop fv.length)

/-- The amended consumption rule: as `specConsume`, but each computed
string must additionally be nonempty (the code returns `False` on a falsy
function value). -/
def specConsumeNE (sub : Subscriptable) : List Calc → Str → Bool
  | [], code => code.isEmpty
  | c :: rest, code =>
    match evalFunc c code sub with
    | none => false
    | some fv =>
      !fv.isEmpty && fv.isPrefixOf code && specConsumeNE sub rest (code.drop fv.length)

/-- Modelled from the spec (C8's reading of "count of ASCII letters"):
both uppercase and lowercase, `A`–`Z` and `a`–`z`. -/
def specAsciiLetterCount (s : Str) : Nat :=
  s.countP (fun c => ('A' ≤ c ∧ c ≤ 'Z') ∨ ('a' ≤ c ∧ c ≤ 'z'))

/-- A lowercase ASCII letter (`a`–`z`), for the amended C8 statement. -/
def isLowerAZ (c : Char) : Bool := 'a' ≤ c ∧ c ≤ 'z'

/-- The set `D` of §4.5: the distinct delivery accounts over all
`MatchInfo` records of all spec matches. -/
def distinctAccounts (ms : List SpecMatch) : List Str :=
  dedupF (ms.flatMap (fun sm => sm.minfos.map (·.delivery_account)))

/-! ## Concrete configurations used by the theorems -/

/-- Build a parsed spec as the loader does: the match expression is
compiled by the `expression` setter during parsing (the fallback default
is never reached for the well-formed literals below). -/
def specFrom (accounts aliases : List Str) (e : String) (calcs : List Calc)
    (line : Nat) : Spec :=
  match compileExpr (strOf e) line with
  | Except.ok mx => ⟨accounts, aliases, mx, calcs, none⟩
  | Except.error _ => ⟨accounts, aliases, ⟨[], [], 0, [], line⟩, calcs, none⟩

/-- The configuration of a load outcome. -/
def configOfLoad (o : Option LoadOut) : Configuration :=
  match o with
  | some (LoadOut.done c _) => c
  | _ => defaultConfig

/-- The logged/raised error of a load outcome. -/
def errOfLoad (o : Option LoadOut) : Option CfgErr :=
  match o with
  | some (LoadOut.done _ e) => e
  | some (LoadOut.raised e) => some e
  | none => none

/-- `WITH CHARS();`. -/
def calcsCHARS : List Calc := [⟨strOf ("CHARS"), []⟩]

/-- `WITH ANY();`. -/
def calcsANY : List Calc := [⟨strOf ("ANY"), []⟩]

/-- C1: two specs with distinct (hence unique) expressions that both
match `ab-2`, delivering to different accounts; no debug account. -/
def c1raw : RawParsed :=
  ⟨none, none, none, none, none,
   [specFrom [strOf ("alice")] [] ("%ident%-%code%") calcsCHARS 1,
    specFrom [strOf ("bob")] [] ("%alnum%-%code%") calcsCHARS 2]⟩

/-- C1: the loaded configuration. -/
def c1cfg : Configuration := configOfLoad (loadConf defaultConfig (Except.ok c1raw) false)

/-- C6/C7 witness: the two-spec configuration of
test/config.py `test_account_no_alias_bad` — same expression, no
aliases, no `%account%`: accepted by the semantic check, rejected by
`enforce_uniqueness`. -/
def c6uSpecs : List Spec :=
  [specFrom [strOf ("foo")] [] ("%alpha%-%code%") calcsANY 1,
   specFrom [strOf ("bar")] [] ("%alpha%-%code%") calcsANY 2]

/-- C6: a parsed configuration that fails `enforce_uniqueness`. -/
def c6uRaw : RawParsed := ⟨none, none, none, none, none, c6uSpecs⟩

/-- C6: a parsed configuration that fails the calc semantic check
(`DIGITS(5)` with a single identifier). -/
def c6sRaw : RawParsed :=
  ⟨none, none, none, none, none,
   [specFrom [strOf ("foo")] [] ("%ident%-%code%")
     [⟨strOf ("DIGITS"), [CalcArg.s (strOf ("5"))]⟩] 1]⟩

/-- C7: three specs.  `spA` (account `x`) has no aliases, does not
reference `%account%`, and shares its expression with `spC` (so it is
not unique) — yet the configuration loads, because `x` has an alias
through `spB`, which routes `spA` into the paired-alias branch, where
the `%alias%` token lets it pass. -/
def c7specs : List Spec :=
  [specFrom [strOf ("x")] [] ("%alias%-%ident%-%code%") calcsCHARS 1,
   specFrom [strOf ("x")] [strOf ("a")] ("%account%.%ident%.%code%") calcsCHARS 2,
   specFrom [strOf ("z")] [strOf ("b")] ("%alias%-%ident%-%code%") calcsCHARS 3]

/-- C7: the parsed configuration around `c7specs`. -/
def c7raw : RawParsed := ⟨none, none, none, none, none, c7specs⟩

/-- C9: a single spec whose match expression has no `%code%` field. -/
def c9spec : Spec := specFrom [strOf ("lee")] [] ("foo%ident%") calcsCHARS 1

/-- C9: the parsed configuration around `c9spec`. -/
def c9raw : RawParsed := ⟨none, none, none, none, none, [c9spec]⟩

/-- C9: the loaded configuration. -/
def c9cfg : Configuration := configOfLoad (loadConf defaultConfig (Except.ok c9raw) false)

/-- C4: a calc expression whose first call computes an empty string
(`CHAR` with an out-of-range offset and the empty default, as produced by
parsing `CHAR(1,2,)`). -/
def c4calcs : List Calc :=
  [⟨strOf ("CHAR"), [CalcArg.s (strOf ("1")), CalcArg.i 2, CalcArg.s []]⟩,
   ⟨strOf ("CHARS"), []⟩]

/-- C4: a single one-character identifier. -/
def c4idents : List Identifier := [⟨strOf ("ident"), strOf ("a")⟩]

/-- Modelled from the spec (C3's reading of the fixed-substring rule):
the substring is valid when its first character is in the start set, its
last character in the end set, and every interior character in the
interior set. -/
def specSpanOk (cs : CharSets) (sub : Str) : Bool :=
  match sub with
  | [] => false
  | h :: _ =>
    decide (h ∈ cs.startC) && decide (sub.getLastD h ∈ cs.endC) &&
      (sub.drop 1).dropLast.all (· ∈ cs.middleC)

/-- The identifier types a sketch can assign: the matcher name of each
element (literal elements map to the empty name). -/
def sketchNames (sk : List Elem) : List Str :=
  sk.map (fun e => matcherName (elemMatcher e))

/-- C9: the sketch the loader builds for `foo%ident%`. -/
def c9sk : List Elem :=
  [Elem.lit (strOf ("foo")), Elem.mat (MatcherK.plain (strOf ("ident")) identCS), Elem.lit []]

/-- C9: the loaded spec built from `c9spec`. -/
def c9loadedSpec : Spec := c9cfg.aliases.headD c9spec

/-- C6: the failing parsed configuration of `c6uRaw` with a changed
scalar setting (the port). -/
def c6uRawP : RawParsed := { c6uRaw with port := some 9999 }

/-- C6: the semantically checked specs of `c6uRawP`. -/
def c6checked : List Spec :=
  match semanticCheckAll (updateConfig defaultConfig c6uRawP).aliases with
  | some (Except.ok s) => s
  | _ => []

/-- C6: the uniqueness error raised on `c6checked`. -/
def c6err : SemErr :=
  match enforceUniqueness c6checked with
  | Except.error e => e
  | Except.ok _ => ⟨"", 0⟩

/-- C7: the loaded (accepted) configuration around `c7specs`. -/
def c7cfg : Configuration := configOfLoad (loadConf defaultConfig (Except.ok c7raw) false)

/-- C7: the first loaded spec (account `x`, no aliases). -/
def c7sp0 : Spec := c7cfg.aliases.headD c9spec

/-- The delivery accounts of one spec match, in match order. -/
def smAccounts (sm : SpecMatch) : List Str := sm.minfos.map (·.delivery_account)

/-! ## Helper lemmas -/

theorem mem_dedupFGo {α : Type} [DecidableEq α] (x : α) :
    ∀ (l seen : List α), x ∈ dedupFGo seen l ↔ x ∈ l ∧ x ∉ seen := by
  intro l
  induction l with
  | nil => intro seen; simp [dedupFGo]
  | cons y ys ih =>
    intro seen
    by_cases hy : y ∈ seen
    · simp only [dedupFGo, if_pos hy, ih, List.mem_cons]
      constructor
      · rintro ⟨hm, hn⟩
        exact ⟨Or.inr hm, hn⟩
      · rintro ⟨hm | hm, hn⟩
        · exact absurd (hm ▸ hy) hn
        · exact ⟨hm, hn⟩
    · simp only [dedupFGo, if_neg hy, List.mem_cons, ih]
      constructor
      · rintro (he | ⟨hm, hn⟩)
        · exact ⟨Or.inl he, he ▸ hy⟩
        · refine ⟨Or.inr hm, fun hs => hn ?_⟩
          simp [hs]
      · rintro ⟨he | hm, hn⟩
        · exact Or.inl he
        · by_cases hx : x = y
          · exact Or.inl hx
          · refine Or.inr ⟨hm, fun hs => ?_⟩
            rcases List.mem_append.mp hs with h1 | h2
            · exact hn h1
            · simp at h2
              exact hx h2

theorem mem_dedupF {α : Type} [DecidableEq α] (x : α) (l : List α) :
    x ∈ dedupF l ↔ x ∈ l := by
  simp [dedupF, mem_dedupFGo]

theorem dedupFGo_subset_seen {α : Type} [DecidableEq α] :
    ∀ (l seen : List α), (∀ y ∈ l, y ∈ seen) → dedupFGo seen l = [] := by
  intro l
  induction l with
  | nil => intro seen _; rfl
  | cons y ys ih =>
    intro seen h
    have hy : y ∈ seen := h y (by simp)
    simp only [dedupFGo, if_pos hy]
    exact ih seen (fun z hz => h z (by simp [hz]))

theorem dedupF_all_eq {α : Type} [DecidableEq α] (l : List α) (a : α)
    (hne : l ≠ []) (hall : ∀ x ∈ l, x = a) : dedupF l = [a] := by
  match l, hne with
  | y :: ys, _ =>
    have hy : y = a := hall y (by simp)
    subst hy
    show dedupFGo [] (y :: ys) = [y]
    simp only [dedupFGo, List.not_mem_nil, if_neg (fun h => h)]
    rw [dedupFGo_subset_seen ys ([] ++ [y])]
    intro z hz
    have := hall z (by simp [hz])
    simp [this]

theorem two_mem_one_lt_length {α : Type} (m : List α) (a b : α)
    (ha : a ∈ m) (hb : b ∈ m) (hab : a ≠ b) : 1 < m.length := by
  match m with
  | [] => simp at ha
  | [x] =>
    simp at ha hb
    exact absurd (ha.trans hb.symm) hab
  | x :: y :: rest => simp [Nat.lt_add_of_pos_left]

theorem firstErrP_ok_iff {α : Type} (f : α → Except SemErr Unit) (l : List α) :
    firstErrP f l = Except.ok () ↔ ∀ x ∈ l, f x = Except.ok () := by
  induction l with
  | nil => simp [firstErrP]
  | cons y ys ih =>
    simp only [firstErrP]
    cases hf : f y with
    | error e => simp [hf]
    | ok u =>
      cases u
      simp [ih, hf]

/-- Every character of the lowercase set is a lowercase ASCII letter and
conversely. -/
theorem mem_ALPHAS_iff (c : Char) : c ∈ ALPHAS_SET ↔ isLowerAZ c = true := by
  constructor
  · intro h
    have h2 : c ∈ ("abcdefghijklmnopqrstuvwxyz").data := h
    fin_cases h2 <;> decide
  · intro h
    simp only [isLowerAZ, decide_eq_true_eq] at h
    have h1 : 97 ≤ c.toNat := h.1
    have h2 : c.toNat ≤ 122 := h.2
    have hc := (Char.ofNat_toNat c).symm
    interval_cases hn : c.toNat <;> (rw [hc]; decide)

/-- `pyLowerC` can only produce a character outside `a`–`z` by fixing it;
for a target that is neither a lowercase nor an uppercase letter, the
equation `pyLowerC c = d` is the same as `c = d`. -/
theorem lowerC_fixes_nonletter (c d : Char)
    (hd1 : ¬('a' ≤ d ∧ d ≤ 'z')) (hd2 : ¬('A' ≤ d ∧ d ≤ 'Z')) :
    pyLowerC c = d ↔ c = d := by
  unfold pyLowerC
  by_cases hup : 'A' ≤ c ∧ c ≤ 'Z'
  · rw [if_pos hup]
    constructor
    · intro he
      exfalso
      have hb : c.toNat ≤ 90 := hup.2
      have hv : (c.toNat + 32).isValidChar := Or.inl (by omega)
      have ht : (Char.ofNat (c.toNat + 32)).toNat = c.toNat + 32 := by
        unfold Char.ofNat
        rw [dif_pos hv]
        rfl
      have hlo : 97 ≤ d.toNat := by
        have h65 : 65 ≤ c.toNat := hup.1
        rw [← he, ht]
        omega
      have hhi : d.toNat ≤ 122 := by
        rw [← he, ht]
        omega
      exact hd1 ⟨hlo, hhi⟩
    · intro he
      exfalso
      subst he
      exact hd2 hup
  · rw [if_neg hup]

/-! ### C4 helper lemmas: `calcRun` versus the consumption rules -/

theorem calcRun_length (sub : Subscriptable) :
    ∀ (calcs : List Calc) (code : Str) (rs : List Str) (rem : Str),
      calcRun sub calcs code = some (rs, rem) → rs.length = calcs.length := by
  intro calcs
  induction calcs with
  | nil =>
    intro code rs rem h
    simp only [calcRun, Option.some.injEq, Prod.mk.injEq] at h
    simp [← h.1]
  | cons c rest ih =>
    intro code rs rem h
    simp only [calcRun] at h
    by_cases hc : code.isEmpty
    · simp [hc] at h
    · rw [if_neg hc] at h
      cases hev : evalFunc c code sub with
      | none => rw [hev] at h; simp at h
      | some fv =>
        rw [hev] at h
        dsimp only at h
        by_cases hfe : fv.isEmpty
        · simp [hfe] at h
        · rw [if_neg hfe] at h
          by_cases hpre : fv.isPrefixOf code
          · rw [if_pos hpre] at h
            cases hrun : calcRun sub rest (code.drop fv.length) with
            | none => rw [hrun] at h; simp at h
            | some p =>
              rw [hrun] at h
              obtain ⟨rs2, rem2⟩ := p
              simp only [Option.some.injEq, Prod.mk.injEq] at h
              rw [← h.1]
              simp [ih _ _ _ hrun]
          · simp [hpre] at h

theorem calcRun_vals_ne (sub : Subscriptable) :
    ∀ (calcs : List Calc) (code : Str) (rs : List Str) (rem : Str),
      calcRun sub calcs code = some (rs, rem) → ∀ v ∈ rs, ¬v.isEmpty := by
  intro calcs
  induction calcs with
  | nil =>
    intro code rs rem h
    simp only [calcRun, Option.some.injEq, Prod.mk.injEq] at h
    simp [← h.1]
  | cons c rest ih =>
    intro code rs rem h
    simp only [calcRun] at h
    by_cases hc : code.isEmpty
    · simp [hc] at h
    · rw [if_neg hc] at h
      cases hev : evalFunc c code sub with
      | none => rw [hev] at h; simp at h
      | some fv =>
        rw [hev] at h
        dsimp only at h
        by_cases hfe : fv.isEmpty
        · simp [hfe] at h
        · rw [if_neg hfe] at h
          by_cases hpre : fv.isPrefixOf code
          · rw [if_pos hpre] at h
            cases hrun : calcRun sub rest (code.drop fv.length) with
            | none => rw [hrun] at h; simp at h
            | some p =>
              rw [hrun] at h
              obtain ⟨rs2, rem2⟩ := p
              simp only [Option.some.injEq, Prod.mk.injEq] at h
              rw [← h.1]
              intro v hv
              rcases List.mem_cons.mp hv with he | hm
              · rw [he]; exact hfe
              · exact ih _ _ _ hrun v hm
          · simp [hpre] at h

theorem specConsumeNE_iff_calcRun (sub : Subscriptable) :
    ∀ (calcs : List Calc) (code : Str),
      specConsumeNE sub calcs code = true ↔
        ∃ rs, calcRun sub calcs code = some (rs, []) := by
  intro calcs
  induction calcs with
  | nil =>
    intro code
    simp only [specConsumeNE, calcRun]
    constructor
    · intro h
      exact ⟨[], by simp [List.isEmpty_iff.mp h]⟩
    · rintro ⟨rs, h⟩
      simp only [Option.some.injEq, Prod.mk.injEq] at h
      simp [h.2]
  | cons c rest ih =>
    intro code
    constructor
    · intro h
      simp only [specConsumeNE] at h
      cases hev : evalFunc c code sub with
      | none =>
        rw [hev] at h
        dsimp only at h
        exact absurd h (by simp)
      | some fv =>
        rw [hev] at h
        dsimp only at h
        simp only [Bool.and_eq_true] at h
        obtain ⟨⟨hfe, hpre⟩, hrest⟩ := h
        obtain ⟨rs2, hrun⟩ := (ih _).mp hrest
        have hc : ¬code.isEmpty = true := by
          intro hcE
          have hp : fv <+: code := List.isPrefixOf_iff_prefix.mp hpre
          rw [List.isEmpty_iff.mp hcE] at hp
          have hfv : fv = [] := List.prefix_nil.mp hp
          simp [hfv] at hfe
        refine ⟨fv :: rs2, ?_⟩
        simp only [calcRun, hev]
        rw [if_neg hc]
        have hfe2 : ¬fv.isEmpty = true := by simp at hfe; simp [hfe]
        rw [if_neg hfe2, if_pos hpre, hrun]
    · rintro ⟨rs, h⟩
      simp only [calcRun] at h
      by_cases hc : code.isEmpty
      · rw [if_pos hc] at h
        exact absurd h (by simp)
      · rw [if_neg hc] at h
        cases hev : evalFunc c code sub with
        | none =>
          rw [hev] at h
          dsimp only at h
          exact absurd h (by simp)
        | some fv =>
          rw [hev] at h
          dsimp only at h
          by_cases hfe : fv.isEmpty
          · rw [if_pos hfe] at h
            exact absurd h (by simp)
          · rw [if_neg hfe] at h
            by_cases hpre : fv.isPrefixOf code
            · rw [if_pos hpre] at h
              cases hrun : calcRun sub rest (code.drop fv.length) with
              | none =>
                rw [hrun] at h
                exact absurd h (by simp)
              | some p =>
                obtain ⟨rs2, rem2⟩ := p
                rw [hrun] at h
                simp only [Option.some.injEq, Prod.mk.injEq] at h
                have hrem : rem2 = [] := h.2
                simp only [specConsumeNE, hev]
                simp only [Bool.and_eq_true]
                refine ⟨⟨by simp [hfe], hpre⟩, ?_⟩
                exact (ih _).mpr ⟨rs2, by rw [hrun, hrem]⟩
            · rw [if_neg hpre] at h
              exact absurd h (by simp)

theorem lookupPairs_len_none (l : List (Str × Nat)) (cmd : Str)
    (h : ∀ p ∈ l, p.1.length ≠ cmd.length) : lookupPairs l cmd = none := by
  induction l with
  | nil => rfl
  | cons p rest ih =>
    simp only [lookupPairs]
    rw [if_neg]
    · exact ih (fun q hq => h q (by simp [hq]))
    · intro hEq
      exact h p (by simp) (by rw [hEq])

theorem decide_mem_ALPHAS_eq_isLower :
    (fun c => decide (c ∈ ALPHAS_SET)) = isLowerAZ := by
  funext c
  by_cases hm : c ∈ ALPHAS_SET
  · rw [decide_eq_true hm]
    exact ((mem_ALPHAS_iff c).mp hm).symm
  · rw [decide_eq_false hm]
    cases hiso : isLowerAZ c with
    | false => rfl
    | true => exact absurd ((mem_ALPHAS_iff c).mpr hiso) hm

theorem pySlice_natBounds {α : Type} (l : List α) (s e : Nat)
    (hs : s ≤ l.length) (he : e ≤ l.length) :
    pySlice l (s : Int) (e : Int) = (l.take e).drop s := by
  simp only [pySlice]
  rw [if_neg (by omega : ¬((s : Int) < 0)), if_neg (by omega : ¬((e : Int) < 0))]
  rw [min_eq_left (by exact_mod_cast hs : (s : Int) ≤ (l.length : Int)),
      min_eq_left (by exact_mod_cast he : (e : Int) ≤ (l.length : Int))]
  simp

/-! ## Claim theorems -/

/-- C3: for every matcher built from three character sets, every input
and positions `start < end` within the input, the call with `end` given
and `minimal` false returns the pair `(start, end)` exactly when the
fixed substring `input[start..end]` has its first character in the start
set, its last in the end set and every interior character in the
interior set, and returns no match otherwise. -/
theorem matcher_fixed_substring (cs : CharSets) (address : Str) (s e : Nat)
    (h1 : s < e) (h2 : e ≤ address.length) :
    matcherCallPlain cs address s (some (e : Int)) false =
      (if specSpanOk cs ((address.take e).drop s) then some (s, (e : Int)) else none) := by
  have hslice : pySlice address (s : Int) (e : Int) = (address.take e).drop s :=
    pySlice_natBounds address s e (by omega) h2
  unfold matcherCallPlain
  rw [if_neg (show ¬(address.length ≤ s) by omega)]
  rw [if_pos (show (some (e : Int)).isSome = true ∧ ¬(false = true) by simp)]
  dsimp only [Option.getD]
  rw [hslice]
  have hne : (address.take e).drop s ≠ [] := by
    have hlen : ((address.take e).drop s).length = min e address.length - s := by simp
    intro hnil
    rw [hnil] at hlen
    simp at hlen
    omega
  cases hsub : (address.take e).drop s with
  | nil => exact absurd hsub hne
  | cons h t =>
    dsimp only
    by_cases hA : h ∈ cs.startC
    · by_cases hB : (h :: t).getLastD h ∈ cs.endC
      · by_cases hC : ((h :: t).drop 1).dropLast.all (· ∈ cs.middleC)
        · rw [if_pos ⟨hA, hB⟩, if_neg (by rintro ⟨-, habs⟩; exact habs hC), if_pos]
          simp only [specSpanOk, Bool.and_eq_true, decide_eq_true_eq]
          exact ⟨⟨hA, hB⟩, hC⟩
        · have hlen3 : 2 < (h :: t).length := by
            cases t with
            | nil => exact absurd (by rfl) hC
            | cons x t2 =>
              cases t2 with
              | nil => exact absurd (by rfl) hC
              | cons y t3 => simp
          rw [if_pos ⟨hA, hB⟩, if_pos ⟨hlen3, hC⟩, if_neg]
          intro hcond
          simp only [specSpanOk, Bool.and_eq_true, decide_eq_true_eq] at hcond
          exact hC hcond.2
      · rw [if_neg (fun hand => hB hand.2), if_neg]
        intro hcond
        simp only [specSpanOk, Bool.and_eq_true, decide_eq_true_eq] at hcond
        exact hB hcond.1.2
    · rw [if_neg (fun hand => hA hand.1), if_neg]
      intro hcond
      simp only [specSpanOk, Bool.and_eq_true, decide_eq_true_eq] at hcond
      exact hA hcond.1.1

/-- C3 witness: the fqdn matcher over the full input `ab.cd`. -/
theorem matcher_fixed_substring_witness :
    (0 : Nat) < 5 ∧ 5 ≤ (strOf ("ab.cd")).length ∧
    matcherCallPlain fqdnCS (strOf ("ab.cd")) 0 (some ((5 : Nat) : Int)) false =
      (if specSpanOk fqdnCS (((strOf ("ab.cd")).take 5).drop 0)
       then some (0, ((5 : Nat) : Int)) else none) :=
  ⟨by decide, by decide,
   matcher_fixed_substring fqdnCS (strOf ("ab.cd")) 0 5 (by decide) (by decide)⟩

/-- C6 counterexample: the parsed configuration `c6uRawP` fails
`enforce_uniqueness` and is loaded in non-strict mode; the error is
recorded, yet the previous (default) configuration is **not** retained:
both the port scalar and the alias specs are replaced by the failing
load's contents. -/
theorem load_error_not_retained_counterexample :
    errOfLoad (loadConf defaultConfig (Except.ok c6uRawP) false) ≠ none ∧
    (configOfLoad (loadConf defaultConfig (Except.ok c6uRawP) false)).port = 9999 ∧
    defaultConfig.port = 3047 ∧
    (configOfLoad (loadConf defaultConfig (Except.ok c6uRawP) false)).aliases.length = 2 ∧
    defaultConfig.aliases.length = 0 := by
  decide

/-- C6 (amended): in non-strict mode a **loader/parse** error retains the
previous configuration; but `update_config` runs before the semantic and
uniqueness checks, so a semantic-check error leaves the updated
configuration behind, and a uniqueness error leaves the updated
configuration with the semantically checked specs behind — in both cases
the error is only recorded (logged). -/
theorem load_nonstrict_update_order (prev : Configuration) (e : CfgErr) (raw : RawParsed) :
    loadConf prev (Except.error e) false = some (LoadOut.done prev (some e)) ∧
    (∀ er, semanticCheckAll (updateConfig prev raw).aliases = some (Except.error er) →
      loadConf prev (Except.ok raw) false =
        some (LoadOut.done (updateConfig prev raw) (some (CfgErr.semanticE er)))) ∧
    (∀ specs2 er, semanticCheckAll (updateConfig prev raw).aliases = some (Except.ok specs2) →
      enforceUniqueness specs2 = Except.error er →
      loadConf prev (Except.ok raw) false =
        some (LoadOut.done { updateConfig prev raw with aliases := specs2 }
          (some (CfgErr.semanticE er)))) := by
  refine ⟨rfl, ?_, ?_⟩
  · intro er h
    unfold loadConf
    dsimp only
    rw [h]
    rfl
  · intro specs2 er h1 h2
    unfold loadConf
    dsimp only
    rw [h1]
    dsimp only
    rw [h2]
    rfl

/-- C6 witness: loading `c6uRawP` non-strictly yields the **updated**
configuration (checked specs included) together with the recorded
uniqueness error. -/
theorem load_nonstrict_update_order_witness :
    semanticCheckAll (updateConfig defaultConfig c6uRawP).aliases =
      some (Except.ok c6checked) ∧
    enforceUniqueness c6checked = Except.error c6err ∧
    loadConf defaultConfig (Except.ok c6uRawP) false =
      some (LoadOut.done { updateConfig defaultConfig c6uRawP with aliases := c6checked }
        (some (CfgErr.semanticE c6err))) :=
  ⟨by decide, by decide,
   (load_nonstrict_update_order defaultConfig (CfgErr.parseE 0) c6uRawP).2.2 c6checked c6err
     (by decide) (by decide)⟩

/-- C7 counterexample: the configuration `c7raw` loads with no error,
although its first spec has no aliases, does not reference `%account%`,
and its match expression is not unique among the loaded specs — the
claim would require a semantic error here. -/
theorem no_alias_spec_accepted_counterexample :
    errOfLoad (loadConf defaultConfig (Except.ok c7raw) false) = none ∧
    c7sp0.aliases = [] ∧
    strOf ("account") ∉ c7sp0.matchex.tokens ∧
    isUniqueExpr c7cfg.aliases c7sp0 = false := by
  decide

/-- C7 (amended): the "no aliases" requirement of `enforce_uniqueness`
is enforced at the **account** level, not the spec level: for every
(account, spec) pair of the configuration whose account has no
associated aliases (over all of that account's specs), the check passes
exactly when the expression references `account` or is syntactically
unique; a failing pair produces the semantic error with that spec's
line number and makes `enforce_uniqueness` fail.  (A spec with no
aliases whose account gains aliases through another spec is instead
subject to the paired/many-alias branches, which also accept an
`%alias%` reference — the counterexample shows such a spec being
accepted.) -/
theorem uniqueness_no_alias_account_level (specs : List Spec) (a : Str) (sp : Spec)
    (hmem : (a, sp) ∈ accountSpecPairs specs)
    (hempty : assocAliases specs a = []) :
    (checkAccountSpec specs a sp = Except.ok () ↔
      strOf ("account") ∈ sp.matchex.tokens ∨ isUniqueExpr specs sp = true) ∧
    (checkAccountSpec specs a sp ≠ Except.ok () →
      checkAccountSpec specs a sp =
        Except.error ⟨"Ambiguous because the account is not present and expression not unique",
          sp.matchex.lineNo⟩ ∧
      enforceUniqueness specs ≠ Except.ok ()) := by
  have hbranch : checkAccountSpec specs a sp =
      (if strOf ("account") ∈ sp.matchex.tokens ∨ isUniqueExpr specs sp = true
       then Except.ok ()
       else Except.error
         ⟨"Ambiguous because the account is not present and expression not unique",
           sp.matchex.lineNo⟩) := by
    unfold checkAccountSpec
    rw [hempty]
    rfl
  constructor
  · rw [hbranch]
    by_cases hc : strOf ("account") ∈ sp.matchex.tokens ∨ isUniqueExpr specs sp = true
    · rw [if_pos hc]
      simp [hc]
    · rw [if_neg hc]
      constructor
      · intro habs
        exact absurd habs (by simp)
      · intro hcon
        exact absurd hcon hc
  · intro hne
    constructor
    · rw [hbranch] at hne ⊢
      by_cases hc : strOf ("account") ∈ sp.matchex.tokens ∨ isUniqueExpr specs sp = true
      · rw [if_pos hc] at hne
        exact absurd rfl hne
      · rw [if_neg hc]
    · intro hok
      unfold enforceUniqueness at hok
      cases hfe : firstErrP (fun p => checkAccountSpec specs p.1 p.2) (accountSpecPairs specs) with
      | error er =>
        rw [hfe] at hok
        exact absurd hok (by simp)
      | ok u =>
        cases u
        exact hne ((firstErrP_ok_iff _ _).mp hfe (a, sp) hmem)

/-- C7 witness: in the two-spec, no-aliases configuration `c6uSpecs` the
account-level check fails for the first spec with its line number, and
`enforce_uniqueness` rejects the configuration. -/
theorem uniqueness_no_alias_account_level_witness :
    checkAccountSpec c6uSpecs (strOf ("foo")) (c6uSpecs.headD c9spec) =
      Except.error ⟨"Ambiguous because the account is not present and expression not unique",
        (c6uSpecs.headD c9spec).matchex.lineNo⟩ ∧
    enforceUniqueness c6uSpecs ≠ Except.ok () :=
  (uniqueness_no_alias_account_level c6uSpecs (strOf ("foo")) (c6uSpecs.headD c9spec)
      (by decide) (by decide)).2 (by decide)

/-- C2: contrary to the specified behaviour, the scanning (greedy) branch
of `Matcher.__call__` never consults the start character set: the fqdn
matcher, called greedily at position 0 of `".a-b.cd.ef"`, returns the span
(0, 9) even though the span's first character is `'.'` (the repository's
own `TestFqdnMatcher.test_leading_trailing` expects `None` here). -/
theorem fqdn_greedy_accepts_leading_dot :
    getMatcherByName (strOf ("fqdn")) = some (MatcherK.plain (strOf ("fqdn")) fqdnCS) ∧
    callMatcher (MatcherK.plain (strOf ("fqdn")) fqdnCS)
        (strOf (".a-b.cd.ef")) 0 none false = some (0, 9) ∧
    pyIdx (strOf (".a-b.cd.ef")) 0 = some '.' := by
  decide

/-- C5: the acknowledgement branch of `service_requests` is dead: the
dictionary `SMFIC_TO_SMFIP` is keyed by the keyword **names**
(`'SMFIC_HEADER'`, …) rather than by the one-character command codes those
variables hold, so no single-character command is ever found in it and no
continue response is ever emitted for an unhandled command — regardless of
the negotiated protocol extensions, whereas the specification requires a
`c` response whenever the no-reply bit for that command was not
negotiated. -/
theorem milter_ack_branch_dead (negotiated : Nat) (cmd : Str) (h : cmd.length = 1) :
    serviceAck negotiated cmd = [] := by
  unfold serviceAck
  by_cases hr : cmd ∈ SMFIC_CONTEXT_RESET
  · rw [if_pos hr]
  · rw [if_neg hr]
    have hl : lookupPairs SMFIC_TO_SMFIP cmd = none := by
      apply lookupPairs_len_none
      intro p hp
      rw [h]
      revert hp
      revert p
      decide
    rw [hl]

/-- C5 witness: the header command `L` after a negotiation that set no
no-reply extension bits: no response at all is emitted. -/
theorem milter_ack_branch_dead_witness :
    (strOf ("L")).length = 1 ∧ serviceAck 0 (strOf ("L")) = [] :=
  ⟨by decide, milter_ack_branch_dead 0 (strOf ("L")) (by decide)⟩

/-- C8 counterexample: the identifier value `"AB"` holds two ASCII
letters under the specification's reading, yet `ALPHAS` computes `"0"`
(its letter set holds only the lowercase letters). -/
theorem func_alphas_uppercase_counterexample :
    func_alphas [] [] ⟨[⟨strOf ("ident"), strOf ("AB")⟩], [], []⟩ = some (strOf ("0")) ∧
    specAsciiLetterCount (strOf ("AB")) = 2 := by
  decide

/-- C8 (amended): for every code value, argument list and subscript state
whose referenced identifier resolves, `ALPHAS` returns the decimal string
of the number of **lowercase** ASCII letters (`a`–`z`) in the referenced
identifier's value (index defaulting to 1); uppercase letters are not
counted. -/
theorem func_alphas_counts_lowercase (code : Str) (args : List CalcArg)
    (sub : Subscriptable) (id : Identifier)
    (h : subGet sub (defaultSub args) = some id) :
    func_alphas code args sub = some (natDec (id.value.countP isLowerAZ)) := by
  unfold func_alphas
  rw [h]
  dsimp only
  rw [decide_mem_ALPHAS_eq_isLower]
  rfl

/-- C8 witness: a mixed-case value `"aB2"` has exactly one lowercase
letter. -/
theorem func_alphas_counts_lowercase_witness :
    subGet ⟨[⟨strOf ("ident"), strOf ("aB2")⟩], [], []⟩ (defaultSub []) =
      some ⟨strOf ("ident"), strOf ("aB2")⟩ ∧
    func_alphas [] [] ⟨[⟨strOf ("ident"), strOf ("aB2")⟩], [], []⟩ =
      some (natDec ((strOf ("aB2")).countP isLowerAZ)) :=
  ⟨by decide,
   func_alphas_counts_lowercase [] [] ⟨[⟨strOf ("ident"), strOf ("aB2")⟩], [], []⟩
     ⟨strOf ("ident"), strOf ("aB2")⟩ (by decide)⟩

/-- C4 counterexample: with one identifier `"a"` and code value `"1"`, the
calc list `CHAR('1',2,''), CHARS()` fails in the code (the empty string
computed by `CHAR` is falsy, so `calculate` returns `False`), while under
the specification's consumption rule the empty string is a prefix of the
working string and `CHARS` then consumes `"1"` exactly, so the evaluation
should succeed. -/
theorem calculate_falsy_value_counterexample :
    pyTruthyO (calculate c4calcs ⟨strOf ("code"), strOf ("1")⟩ c4idents [] []) = false ∧
    specConsume ⟨c4idents, [], []⟩ c4calcs (strOf ("1")) = true := by
  decide

/-- C4 (amended): for every nonempty calc expression, code value,
identifier assignment, account and alias, `calculate` is truthy iff the
calcs consume the code value left to right where each computed string
must additionally be **nonempty** (a falsy computed value aborts the
evaluation) and the working string is empty at the end. -/
theorem calculate_truthy_iff_consumeNE (calcs : List Calc) (code : Identifier)
    (identifiers : List Identifier) (account aliasS : Str) (h : calcs ≠ []) :
    pyTruthyO (calculate calcs code identifiers account aliasS) = true ↔
      specConsumeNE ⟨identifiers, account, aliasS⟩ calcs code.value = true := by
  rw [specConsumeNE_iff_calcRun]
  unfold calculate
  cases hrun : calcRun ⟨identifiers, account, aliasS⟩ calcs code.value with
  | none =>
    constructor
    · intro hF
      simp [pyTruthyO] at hF
    · rintro ⟨rs, hrs⟩
      simp at hrs
  | some p =>
    obtain ⟨rs, rem⟩ := p
    dsimp only
    by_cases hrem : rem.isEmpty
    · have hrem2 : rem = [] := List.isEmpty_iff.mp hrem
      subst hrem2
      rw [if_pos hrem]
      constructor
      · intro _
        exact ⟨rs, rfl⟩
      · intro _
        simp only [pyTruthyO]
        have hlen := calcRun_length _ _ _ _ _ hrun
        have hvals := calcRun_vals_ne _ _ _ _ _ hrun
        cases rs with
        | nil =>
          cases calcs with
          | nil => exact absurd rfl h
          | cons c cs => simp at hlen
        | cons v vs =>
          have hv : ¬v.isEmpty = true := hvals v (by simp)
          cases v with
          | nil => simp at hv
          | cons a as => simp
    · rw [if_neg hrem]
      constructor
      · intro hF
        simp [pyTruthyO] at hF
      · rintro ⟨rs2, hrs⟩
        simp only [Option.some.injEq, Prod.mk.injEq] at hrs
        exact absurd (by simp [hrs.2] : rem.isEmpty = true) hrem

/-! ### C10 helper lemmas: the RCPT parsing pipeline commutes with
lowercasing -/

theorem findIdx_lower (s : Str) (c : Char)
    (h1 : ¬('a' ≤ c ∧ c ≤ 'z')) (h2 : ¬('A' ≤ c ∧ c ≤ 'Z')) :
    (pyLowerS s).findIdx? (· = c) = s.findIdx? (· = c) := by
  unfold pyLowerS
  rw [List.findIdx?_map]
  congr 1
  funext x
  simp only [Function.comp_apply]
  exact decide_eq_decide.mpr (lowerC_fixes_nonletter x c h1 h2)

theorem pyFindC_lower (s : Str) (c : Char)
    (h1 : ¬('a' ≤ c ∧ c ≤ 'z')) (h2 : ¬('A' ≤ c ∧ c ≤ 'Z')) :
    pyFindC (pyLowerS s) c = pyFindC s c := by
  unfold pyFindC
  rw [findIdx_lower s c h1 h2]

theorem pyRFindC_lower (s : Str) (c : Char)
    (h1 : ¬('a' ≤ c ∧ c ≤ 'z')) (h2 : ¬('A' ≤ c ∧ c ≤ 'Z')) :
    pyRFindC (pyLowerS s) c = pyRFindC s c := by
  unfold pyRFindC
  have hrev : (pyLowerS s).reverse = pyLowerS s.reverse := by
    unfold pyLowerS
    exact (List.map_reverse pyLowerC s).symm
  rw [hrev, findIdx_lower s.reverse c h1 h2,
    show (pyLowerS s).length = s.length from List.length_map _ _]

theorem pySlice_lower (l : Str) (lo hi : Int) :
    pySlice (pyLowerS l) lo hi = pyLowerS (pySlice l lo hi) := by
  unfold pyLowerS
  simp only [pySlice, List.length_map]
  rw [← List.map_take, ← List.map_drop]

theorem pySplitC_ne_nil (sep : Char) : ∀ s, pySplitC s sep ≠ [] := by
  intro s
  induction s with
  | nil => simp [pySplitC]
  | cons c rest ih =>
    simp only [pySplitC]
    cases hm : pySplitC rest sep with
    | nil => by_cases hc : c = sep <;> simp [hc]
    | cons piece more => by_cases hc : c = sep <;> simp [hc]

theorem pySplitC_lower (sep : Char)
    (h1 : ¬('a' ≤ sep ∧ sep ≤ 'z')) (h2 : ¬('A' ≤ sep ∧ sep ≤ 'Z')) :
    ∀ s, pySplitC (pyLowerS s) sep = (pySplitC s sep).map pyLowerS := by
  intro s
  induction s with
  | nil => rfl
  | cons c rest ih =>
    show pySplitC (pyLowerC c :: pyLowerS rest) sep = _
    simp only [pySplitC]
    rw [ih]
    cases hm : pySplitC rest sep with
    | nil => exact absurd hm (pySplitC_ne_nil sep rest)
    | cons piece more =>
      simp only [List.map_cons]
      by_cases hc : c = sep
      · rw [if_pos ((lowerC_fixes_nonletter c sep h1 h2).mpr hc), if_pos hc]
        simp [pyLowerS]
      · rw [if_neg (fun habs => hc ((lowerC_fixes_nonletter c sep h1 h2).mp habs)),
          if_neg hc]
        simp [pyLowerS]

/-- No character in the letter range (uppercase through lowercase) is
whitespace. -/
theorem pyIsWS_letterlike (d : Char) (hlo : 65 ≤ d.toNat) (hhi : d.toNat ≤ 122) :
    pyIsWS d = false := by
  have hc := (Char.ofNat_toNat d).symm
  interval_cases hn : d.toNat <;> (rw [hc]; decide)

theorem pyIsWS_lower (c : Char) : pyIsWS (pyLowerC c) = pyIsWS c := by
  unfold pyLowerC
  by_cases hup : 'A' ≤ c ∧ c ≤ 'Z'
  · rw [if_pos hup]
    have h1 : 65 ≤ c.toNat := hup.1
    have h2 : c.toNat ≤ 90 := hup.2
    have hv : (c.toNat + 32).isValidChar := Or.inl (by omega)
    have ht : (Char.ofNat (c.toNat + 32)).toNat = c.toNat + 32 := by
      unfold Char.ofNat
      rw [dif_pos hv]
      rfl
    rw [pyIsWS_letterlike (Char.ofNat (c.toNat + 32)) (by omega) (by omega),
      pyIsWS_letterlike c (by omega) (by omega)]
  · rw [if_neg hup]

theorem pyStrip_lower (s : Str) : pyStrip (pyLowerS s) = pyLowerS (pyStrip s) := by
  have hcomp : (pyIsWS ∘ pyLowerC) = pyIsWS := funext pyIsWS_lower
  unfold pyStrip pyLowerS
  rw [List.dropWhile_map, hcomp, ← List.map_reverse, List.dropWhile_map, hcomp,
    ← List.map_reverse]

/-- C10: the local-delivery classification of the milter's RCPT branch is
case-insensitive: two recipient payloads equal up to ASCII case are
classified identically against any configured domain list, because the
parsing pipeline (angle-bracket slicing, `@`-splitting, stripping)
commutes with lowercasing and both sides of the final comparison are
lowercased. -/
theorem rcpt_local_case_insensitive (r1 r2 : Str) (domains : List Str)
    (h : pyLowerS r1 = pyLowerS r2) :
    rcptIsLocal r1 domains = rcptIsLocal r2 domains := by
  have hfind : pyFindC r1 '<' = pyFindC r2 '<' := by
    rw [← pyFindC_lower r1 '<' (by decide) (by decide), h,
      pyFindC_lower r2 '<' (by decide) (by decide)]
  have hrfind : pyRFindC r1 '>' = pyRFindC r2 '>' := by
    rw [← pyRFindC_lower r1 '>' (by decide) (by decide), h,
      pyRFindC_lower r2 '>' (by decide) (by decide)]
  have hslice : pyLowerS (pySlice r1 (pyFindC r1 '<' + 1) (pyRFindC r1 '>')) =
      pyLowerS (pySlice r2 (pyFindC r2 '<' + 1) (pyRFindC r2 '>')) := by
    rw [← pySlice_lower, ← pySlice_lower, h, hfind, hrfind]
  have hparsed : (recipientParsed r1).map pyLowerS = (recipientParsed r2).map pyLowerS := by
    unfold recipientParsed
    rw [← pySplitC_lower '@' (by decide) (by decide),
      ← pySplitC_lower '@' (by decide) (by decide), hslice]
  have hlast : ((recipientParsed r1).getLast?).map pyLowerS =
      ((recipientParsed r2).getLast?).map pyLowerS := by
    rw [← List.getLast?_map, ← List.getLast?_map, hparsed]
  unfold rcptIsLocal recipientDomain
  cases hg1 : (recipientParsed r1).getLast? with
  | none =>
    cases hg2 : (recipientParsed r2).getLast? with
    | none => rfl
    | some f2 =>
      rw [hg1, hg2] at hlast
      simp at hlast
  | some f1 =>
    cases hg2 : (recipientParsed r2).getLast? with
    | none =>
      rw [hg1, hg2] at hlast
      simp at hlast
    | some f2 =>
      rw [hg1, hg2] at hlast
      simp only [Option.map_some', Option.some.injEq] at hlast
      dsimp only
      have hd : pyLowerS (pyStrip f1) = pyLowerS (pyStrip f2) := by
        rw [← pyStrip_lower, ← pyStrip_lower, hlast]
      have hlen : (pyStrip f1).length = (pyStrip f2).length := by
        have hll := congrArg List.length hd
        simpa [pyLowerS] using hll
      by_cases hE : (pyStrip f1).isEmpty
      · have hE2 : (pyStrip f2).isEmpty = true := by
          have h0 : pyStrip f1 = [] := List.isEmpty_iff.mp hE
          have h02 : (pyStrip f2).length = 0 := by
            rw [← hlen, h0]
            rfl
          exact List.isEmpty_iff.mpr (List.length_eq_zero.mp h02)
        rw [if_pos hE, if_pos hE2]
      · have hE2 : ¬(pyStrip f2).isEmpty = true := by
          intro habs
          have h0 : pyStrip f2 = [] := List.isEmpty_iff.mp habs
          have h01 : (pyStrip f1).length = 0 := by
            rw [hlen, h0]
            rfl
          exact hE (List.isEmpty_iff.mpr (List.length_eq_zero.mp h01))
        rw [if_neg hE, if_neg hE2]
        simp only [Option.map_some']
        rw [hd]

/-- C10 witness: a mixed-case and a lowercase rendering of the same
recipient are classified identically. -/
theorem rcpt_local_case_insensitive_witness :
    pyLowerS (strOf ("<User@Example.COM>")) = pyLowerS (strOf ("<user@example.com>")) ∧
    rcptIsLocal (strOf ("<User@Example.COM>")) [strOf ("example.com")] =
      rcptIsLocal (strOf ("<user@example.com>")) [strOf ("example.com")] :=
  ⟨by decide,
   rcpt_local_case_insensitive (strOf ("<User@Example.COM>")) (strOf ("<user@example.com>"))
     [strOf ("example.com")] (by decide)⟩

/-- C4 witness: `CHARS()` alone consumes the code value `"1"` of a
one-character identifier. -/
theorem calculate_truthy_iff_consumeNE_witness :
    calcsCHARS ≠ [] ∧
    (pyTruthyO (calculate calcsCHARS ⟨strOf ("code"), strOf ("1")⟩ c4idents [] []) = true ↔
      specConsumeNE ⟨c4idents, [], []⟩ calcsCHARS (strOf ("1")) = true) :=
  ⟨by decide,
   calculate_truthy_iff_consumeNE calcsCHARS ⟨strOf ("code"), strOf ("1")⟩ c4idents [] []
     (by decide)⟩

/-! ### C9 helper lemmas: a sketch without a `code` matcher never yields
a code identifier, so no candidate ever verifies -/

theorem sketch_types (fuel : Nat) :
    (∀ (address : Str) (sk : List Elem) (pos : Nat) (m : List Identifier) (id : Identifier),
      m ∈ matchSketchF fuel address sk pos → id ∈ m → id.type ∈ sketchNames sk) ∧
    (∀ (address : Str) (mk : MatcherK) (endLit : Option Str) (rest : List Elem)
      (startPos eo : Nat) (m : List Identifier) (id : Identifier),
      m ∈ sketchLoopF fuel address mk endLit rest startPos eo → id ∈ m →
        id.type = matcherName mk ∨ id.type ∈ sketchNames rest) := by
  induction fuel with
  | zero =>
    constructor
    · intro address sk pos m id hm _
      simp [matchSketchF] at hm
    · intro address mk endLit rest startPos eo m id hm _
      simp [sketchLoopF] at hm
  | succ fuel ih =>
    constructor
    · intro address sk pos m id hm hid
      by_cases hb1 : sk.length ≤ 1
      · by_cases hb2 : address.length ≤ pos
        · simp [matchSketchF, hb1, hb2] at hm
          subst hm
          simp at hid
        · simp [matchSketchF, hb1, hb2] at hm
      · by_cases hb2 : address.length ≤ pos
        · simp [matchSketchF, hb1, hb2] at hm
        · have hloop : ∀ (e0 e1 : Elem) (rest : List Elem) (p : Nat),
              sk = e0 :: e1 :: rest →
              m ∈ sketchLoopF fuel address (elemMatcher e1)
                  (match rest.head? with
                   | some r => if elemStr r = [] then none else some (elemStr r)
                   | none => none) rest p p →
              id.type ∈ sketchNames sk := by
            intro e0 e1 rest p hske hm2
            have hor := ih.2 address (elemMatcher e1) _ rest p p m id hm2 hid
            rw [hske]
            simp only [sketchNames, List.map_cons, List.mem_cons]
            rcases hor with hl | hr
            · exact Or.inr (Or.inl hl)
            · simp only [sketchNames] at hr
              simp [hr]
          by_cases hb3 : pos = 0
          · subst hb3
            simp only [matchSketchF] at hm
            simp [hb1, hb2] at hm
            match hske : sk, hb1 with
            | e0 :: e1 :: rest, _ =>
              obtain ⟨-, hm⟩ := hm
              dsimp only at hm
              exact hloop e0 e1 rest _ rfl hm
          · simp only [matchSketchF] at hm
            simp [hb1, hb2, hb3] at hm
            match hske : sk, hb1 with
            | e0 :: e1 :: rest, _ =>
              try obtain ⟨-, hm⟩ := hm
              try dsimp only at hm
              exact hloop e0 e1 rest _ rfl hm
    · intro address mk endLit rest startPos eo m id hm hid
      simp only [sketchLoopF] at hm
      split at hm
      · simp at hm
      · split at hm
        · rename_i litS
          split at hm
          · rw [List.mem_append] at hm
            rcases hm with hm | hm
            · split at hm
              · obtain ⟨m1, hm1, hmeq⟩ := List.mem_map.mp hm
                subst hmeq
                rcases List.mem_cons.mp hid with hidh | hidt
                · subst hidh
                  exact Or.inl rfl
                · exact Or.inr (ih.1 address rest _ m1 id hm1 hidt)
              · simp at hm
            · exact ih.2 address mk _ rest startPos _ m id hm hid
          · exact ih.2 address mk _ rest startPos _ m id hm hid
        · split at hm
          · rw [List.mem_append] at hm
            rcases hm with hm | hm
            · split at hm
              · obtain ⟨m1, hm1, hmeq⟩ := List.mem_map.mp hm
                subst hmeq
                rcases List.mem_cons.mp hid with hidh | hidt
                · subst hidh
                  exact Or.inl rfl
                · exact Or.inr (ih.1 address rest _ m1 id hm1 hidt)
              · simp at hm
            · exact ih.2 address mk _ rest startPos _ m id hm hid
          · exact ih.2 address mk _ rest startPos _ m id hm hid

theorem foldl_code_none : ∀ (m : List Identifier),
    (∀ id ∈ m, id.type ≠ strOf ("code")) →
    m.foldl (fun acc id => if id.type = strOf ("code") then some id else acc) none = none := by
  intro m
  induction m with
  | nil =>
    intro _
    rfl
  | cons idh rest ih =>
    intro h
    simp only [List.foldl_cons]
    rw [if_neg (h idh (by simp))]
    exact ih (fun x hx => h x (by simp [hx]))

theorem unpackOne_no_code (m : List Identifier)
    (h : ∀ id ∈ m, id.type ≠ strOf ("code")) : (unpackOne m).1 = none := by
  unfold unpackOne
  exact foldl_code_none m h

theorem verifiedOf_no_code (calcs : List Calc) (matched : IdentList) (account aliasS : Str)
    (h : ∀ m ∈ matched, ∀ id ∈ m, id.type ≠ strOf ("code")) :
    verifiedOf calcs matched account aliasS = [] := by
  unfold verifiedOf unpack
  rw [List.filterMap_eq_nil_iff]
  intro p hp
  obtain ⟨m, hm, hpe⟩ := List.mem_map.mp hp
  subst hpe
  rw [unpackOne_no_code m (h m hm)]

theorem matchexMatch_no_code (sk : List Elem) (calcs : List Calc)
    (accounts aliases : List Str) (address : Str)
    (h : ∀ account aliasS, strOf ("code") ∉ sketchNames (substSketch account aliasS sk)) :
    matchexMatch sk calcs accounts aliases address = [] := by
  unfold matchexMatch
  split
  · rfl
  · rw [List.flatMap_eq_nil_iff]
    intro account _
    rw [List.flatMap_eq_nil_iff]
    intro aliasS _
    dsimp only
    split
    · rfl
    · have hv : verifiedOf calcs (matchSketch address (substSketch account aliasS sk) 0)
          account aliasS = [] := by
        apply verifiedOf_no_code
        intro m hm id hid habs
        unfold matchSketch at hm
        have hmem := (sketch_types _).1 address (substSketch account aliasS sk) 0 m id hm hid
        rw [habs] at hmem
        exact h account aliasS hmem
      rw [hv]

/-- C9 counterexample: the configuration `c9raw`, whose single spec's
match expression `foo%ident%` has no `%code%` field, loads without any
error — the claim would require the load to fail. -/
theorem no_code_loads_counterexample :
    errOfLoad (loadConf defaultConfig (Except.ok c9raw) false) = none ∧
    strOf ("code") ∉ c9loadedSpec.matchex.tokens := by
  decide

/-- C9 (amended): a spec whose match expression lacks `%code%` is
accepted — no parse or semantic check requires a code field — but it can
never deliver: its sketch contains no code matcher, so no match ever
carries a code value, every candidate is skipped at verification, and
`find` returns the empty string for every input address. -/
theorem no_code_spec_loads_and_never_delivers :
    errOfLoad (loadConf defaultConfig (Except.ok c9raw) false) = none ∧
    ∀ address, find address c9cfg = some [] := by
  constructor
  · decide
  · intro address
    have hsk : c9loadedSpec.sketch = some c9sk := by decide
    have haliases : c9cfg.aliases = [c9loadedSpec] := by decide
    have hnames : strOf ("code") ∉ sketchNames c9sk := by decide
    have hmm : matchexMatch c9sk c9loadedSpec.calcs c9loadedSpec.accounts
        c9loadedSpec.aliases address = [] :=
      matchexMatch_no_code _ _ _ _ _
        (fun a b => by rw [show substSketch a b c9sk = c9sk from rfl]; exact hnames)
    have ham : aliasMatch c9loadedSpec address = [] := by
      unfold aliasMatch
      rw [hsk]
      dsimp only
      rw [hmm]
      rfl
    have hcol : collectMatches address c9cfg = [] := by
      unfold collectMatches
      rw [haliases]
      simp [ham]
    unfold find
    rw [hcol]
    rfl

/-! ### C1 helper lemmas: the aggregation loop of `find` -/

theorem dedupFGo_nodup {α : Type} [DecidableEq α] :
    ∀ (l seen : List α), (dedupFGo seen l).Nodup := by
  intro l
  induction l with
  | nil =>
    intro seen
    simp [dedupFGo]
  | cons x xs ih =>
    intro seen
    by_cases hx : x ∈ seen
    · simp only [dedupFGo, if_pos hx]
      exact ih seen
    · simp only [dedupFGo, if_neg hx]
      refine List.nodup_cons.mpr ⟨?_, ih (seen ++ [x])⟩
      intro hmem
      exact ((mem_dedupFGo x xs (seen ++ [x])).mp hmem).2 (by simp)

theorem exists_two_distinct_of_dedup {α : Type} [DecidableEq α] (l : List α)
    (h : 1 < (dedupF l).length) :
    ∃ a b, a ∈ l ∧ b ∈ l ∧ a ≠ b := by
  rcases hlist : dedupF l with _ | ⟨a, _ | ⟨b, t⟩⟩
  · rw [hlist] at h
    simp at h
  · rw [hlist] at h
    simp at h
  · have hnd : (dedupF l).Nodup := dedupFGo_nodup l []
    rw [hlist] at hnd
    have hab : a ≠ b := by
      intro he
      subst he
      simp [List.nodup_cons] at hnd
    refine ⟨a, b, ?_, ?_, hab⟩
    · rw [← mem_dedupF a l, hlist]
      simp
    · rw [← mem_dedupF b l, hlist]
      simp

theorem smDelivery_of_all_eq (sm : SpecMatch) (a : Str) (hne : sm.minfos ≠ [])
    (hall : ∀ x ∈ smAccounts sm, x = a) : smDelivery sm = some a := by
  unfold smDelivery
  have hd : dedupF (sm.minfos.map (·.delivery_account)) = [a] := by
    apply dedupF_all_eq
    · intro habs
      exact hne (List.map_eq_nil_iff.mp habs)
    · exact hall
  rw [hd]
  rfl

theorem smDelivery_some_eq (sm : SpecMatch) (a : Str) (h : smDelivery sm = some a) :
    ∀ x ∈ smAccounts sm, x = a := by
  unfold smDelivery at h
  intro x hx
  have hxm : x ∈ dedupF (sm.minfos.map (·.delivery_account)) :=
    (mem_dedupF x _).mpr hx
  by_cases hl : 1 < (dedupF (sm.minfos.map (·.delivery_account))).length
  · rw [if_pos hl] at h
    simp at h
  · rw [if_neg hl] at h
    rcases hdd : dedupF (sm.minfos.map (·.delivery_account)) with _ | ⟨y, t⟩
    · rw [hdd] at hxm
      simp at hxm
    · rw [hdd] at h hl hxm
      simp only [List.head?_cons, Option.some.injEq] at h
      have ht : t = [] := by
        cases t with
        | nil => rfl
        | cons z t2 =>
          exfalso
          apply hl
          simp
      subst ht
      simp at hxm
      rw [hxm, h]

theorem smDelivery_mem (sm : SpecMatch) (a : Str) (h : smDelivery sm = some a) :
    a ∈ smAccounts sm := by
  unfold smDelivery at h
  by_cases hl : 1 < (dedupF (sm.minfos.map (·.delivery_account))).length
  · rw [if_pos hl] at h
    simp at h
  · rw [if_neg hl] at h
    have ham : a ∈ dedupF (sm.minfos.map (·.delivery_account)) := by
      rcases hdd : dedupF (sm.minfos.map (·.delivery_account)) with _ | ⟨y, t⟩
      · rw [hdd] at h
        simp at h
      · rw [hdd] at h
        simp only [List.head?_cons, Option.some.injEq] at h
        rw [hdd, h]
        simp
    exact (mem_dedupF a _).mp ham

theorem collect_minfos_ne (name : Str) (config : Configuration) :
    ∀ sm ∈ collectMatches name config, sm.minfos ≠ [] := by
  intro sm hsm
  unfold collectMatches at hsm
  obtain ⟨sp, _, hsm2⟩ := List.mem_flatMap.mp hsm
  unfold aliasMatch at hsm2
  cases hsk : sp.sketch with
  | none =>
    rw [hsk] at hsm2
    simp at hsm2
  | some sk =>
    rw [hsk] at hsm2
    dsimp only at hsm2
    by_cases hie : (matchexMatch sk sp.calcs sp.accounts sp.aliases name).isEmpty
    · rw [if_pos hie] at hsm2
      simp at hsm2
    · rw [if_neg hie] at hsm2
      simp at hsm2
      subst hsm2
      intro habs
      have habs2 : matchexMatch sk sp.calcs sp.accounts sp.aliases name = [] := habs
      exact hie (by simp [habs2])

theorem findStep_snd_none (amb : Bool) (sm : SpecMatch) :
    (findStep (amb, none) sm).2 = none := by
  unfold findStep
  cases hD : smDelivery sm <;> rfl

theorem findStep_snd_empty (amb : Bool) (sm : SpecMatch) :
    (findStep (amb, some []) sm).2 = smDelivery sm := by
  unfold findStep
  cases hD : smDelivery sm <;> rfl

theorem findStep_snd_some (amb : Bool) (sm : SpecMatch) (a : Str) (ha : a ≠ []) :
    (findStep (amb, some a) sm).2 =
      (if smDelivery sm = some a then some a else none) := by
  have hta : pyTruthyO (some a) = true :=
    match a, ha with
    | _ :: _, _ => rfl
  unfold findStep
  cases hD : smDelivery sm with
  | none =>
    rw [if_neg (by simp)]
    rfl
  | some b =>
    by_cases hab : b = a
    · subst hab
      rw [if_pos rfl]
      simp [hta]
    · have hab2 : a ≠ b := fun he => hab he.symm
      rw [if_neg (fun habs => hab (Option.some.inj habs))]
      simp [hta, hab2]

theorem fold_snd_none : ∀ (ms : List SpecMatch) (amb : Bool),
    (ms.foldl findStep (amb, none)).2 = none := by
  intro ms
  induction ms with
  | nil =>
    intro amb
    rfl
  | cons sm rest ih =>
    intro amb
    rw [List.foldl_cons,
      show findStep (amb, none) sm = ((findStep (amb, none) sm).1, none) from
        Prod.ext rfl (findStep_snd_none amb sm)]
    exact ih _

theorem fold_snd_all_eq (a : Str) (ha : a ≠ []) : ∀ (ms : List SpecMatch) (amb : Bool),
    (∀ sm ∈ ms, smDelivery sm = some a) →
    (ms.foldl findStep (amb, some a)).2 = some a := by
  intro ms
  induction ms with
  | nil =>
    intro amb _
    rfl
  | cons sm rest ih =>
    intro amb hall
    have h2 : (findStep (amb, some a) sm).2 = some a := by
      rw [findStep_snd_some amb sm a ha, if_pos (hall sm (by simp))]
    rw [List.foldl_cons,
      show findStep (amb, some a) sm = ((findStep (amb, some a) sm).1, some a) from
        Prod.ext rfl h2]
    exact ih _ (fun x hx => hall x (by simp [hx]))

theorem fold_snd_exists_ne (a : Str) (ha : a ≠ []) : ∀ (ms : List SpecMatch) (amb : Bool),
    (∃ sm ∈ ms, smDelivery sm ≠ some a) →
    (ms.foldl findStep (amb, some a)).2 = none := by
  intro ms
  induction ms with
  | nil =>
    rintro amb ⟨sm, hmem, _⟩
    simp at hmem
  | cons sm rest ih =>
    rintro amb ⟨sm1, hmem, hne⟩
    rw [List.foldl_cons]
    by_cases hsm : smDelivery sm = some a
    · have h2 : (findStep (amb, some a) sm).2 = some a := by
        rw [findStep_snd_some amb sm a ha, if_pos hsm]
      rw [show findStep (amb, some a) sm = ((findStep (amb, some a) sm).1, some a) from
        Prod.ext rfl h2]
      apply ih
      rcases List.mem_cons.mp hmem with he | hm
      · exact absurd (by rw [← he] at hsm; exact hsm) hne
      · exact ⟨sm1, hm, hne⟩
    · have h2 : (findStep (amb, some a) sm).2 = none := by
        rw [findStep_snd_some amb sm a ha, if_neg hsm]
      rw [show findStep (amb, some a) sm = ((findStep (amb, some a) sm).1, none) from
        Prod.ext rfl h2]
      exact fold_snd_none rest _

/-- C1 counterexample: a cleanly loaded two-spec configuration with no
debug account where the input `ab-2` matches both specs with two distinct
delivery accounts; the spec's rule requires the empty string, but `find`
returns `None` (`config.debug_account` is `None` when unset, and that is
what `find` returns). -/
theorem find_ambiguous_returns_none_counterexample :
    errOfLoad (loadConf defaultConfig (Except.ok c1raw) false) = none ∧
    c1cfg.debug_account = none ∧
    distinctAccounts (collectMatches (strOf ("ab-2")) c1cfg) =
      [strOf ("alice"), strOf ("bob")] ∧
    find (strOf ("ab-2")) c1cfg = none := by
  decide

/-- C1 (amended): for a configuration whose matches carry only nonempty
delivery accounts, `find` follows the three-way rule with one correction:
when no spec matches it returns the empty string; when the matches yield
exactly one distinct delivery account it returns that account; but when
they yield more than one distinct account it returns
`config.debug_account` as stored — which is `None` (not the empty
string) when no debug account is configured. -/
theorem find_decision (name : Str) (config : Configuration)
    (hacc : ∀ sm ∈ collectMatches name config, ∀ mi ∈ sm.minfos,
      mi.delivery_account ≠ []) :
    (collectMatches name config = [] → find name config = some []) ∧
    (∀ a, distinctAccounts (collectMatches name config) = [a] →
      find name config = some a) ∧
    (1 < (distinctAccounts (collectMatches name config)).length →
      find name config = config.debug_account) := by
  refine ⟨?_, ?_, ?_⟩
  · intro h
    unfold find
    rw [h]
    rfl
  · intro a hD
    cases hms : collectMatches name config with
    | nil =>
      rw [hms] at hD
      simp [distinctAccounts, dedupF, dedupFGo] at hD
    | cons sm0 rest =>
      rw [hms] at hD hacc
      have hallL : ∀ x ∈ (sm0 :: rest).flatMap smAccounts, x = a := by
        intro x hx
        have hxd : x ∈ distinctAccounts (sm0 :: rest) := by
          unfold distinctAccounts
          rw [mem_dedupF]
          exact hx
        rw [hD] at hxd
        simpa using hxd
      have ha : a ≠ [] := by
        have haL : a ∈ (sm0 :: rest).flatMap smAccounts := by
          have had : a ∈ distinctAccounts (sm0 :: rest) := by
            rw [hD]
            simp
          unfold distinctAccounts at had
          rw [mem_dedupF] at had
          exact had
        obtain ⟨sm, hsm, hxa⟩ := List.mem_flatMap.mp haL
        unfold smAccounts at hxa
        obtain ⟨mi, hmi, hmieq⟩ := List.mem_map.mp hxa
        rw [← hmieq]
        exact hacc sm hsm mi hmi
      have hall : ∀ sm ∈ (sm0 :: rest), smDelivery sm = some a := by
        intro sm hsm
        apply smDelivery_of_all_eq sm a
        · have := collect_minfos_ne name config sm (by rw [hms]; exact hsm)
          exact this
        · intro x hx
          exact hallL x (List.mem_flatMap.mpr ⟨sm, hsm, hx⟩)
      have h0 : (findStep (false, some []) sm0).2 = some a := by
        rw [findStep_snd_empty, hall sm0 (by simp)]
      have hst : ((sm0 :: rest).foldl findStep (false, some [])).2 = some a := by
        rw [List.foldl_cons,
          show findStep (false, some []) sm0 = ((findStep (false, some []) sm0).1, some a)
            from Prod.ext rfl h0]
        exact fold_snd_all_eq a ha rest _ (fun x hx => hall x (by simp [hx]))
      have hta : pyTruthyO (some a) = true :=
        match a, ha with
        | _ :: _, _ => rfl
      unfold find
      rw [hms]
      rw [if_neg (by simp)]
      dsimp only
      rw [hst, hta]
      rfl
  · intro hlen
    cases hms : collectMatches name config with
    | nil =>
      rw [hms] at hlen
      simp [distinctAccounts, dedupF, dedupFGo] at hlen
    | cons sm0 rest =>
      rw [hms] at hlen hacc
      unfold distinctAccounts at hlen
      obtain ⟨x, y, hx, hy, hxy⟩ := exists_two_distinct_of_dedup _ hlen
      have hnotall : ¬∃ c, ∀ sm ∈ (sm0 :: rest), smDelivery sm = some c := by
        rintro ⟨c, hc⟩
        have hxc : x = c := by
          obtain ⟨smx, hsmx, hxx⟩ := List.mem_flatMap.mp hx
          exact smDelivery_some_eq smx c (hc smx hsmx) x hxx
        have hyc : y = c := by
          obtain ⟨smy, hsmy, hyy⟩ := List.mem_flatMap.mp hy
          exact smDelivery_some_eq smy c (hc smy hsmy) y hyy
        exact hxy (hxc.trans hyc.symm)
      have hst : ((sm0 :: rest).foldl findStep (false, some [])).2 = none := by
        cases hD0 : smDelivery sm0 with
        | none =>
          rw [List.foldl_cons,
            show findStep (false, some []) sm0 = ((findStep (false, some []) sm0).1, none)
              from Prod.ext rfl (by rw [findStep_snd_empty, hD0])]
          exact fold_snd_none rest _
        | some c =>
          have hc_ne : c ≠ [] := by
            have hcm : c ∈ smAccounts sm0 := smDelivery_mem sm0 c hD0
            unfold smAccounts at hcm
            obtain ⟨mi, hmi, hmeq⟩ := List.mem_map.mp hcm
            rw [← hmeq]
            exact hacc sm0 (by simp) mi hmi
          have hex : ∃ sm ∈ rest, smDelivery sm ≠ some c := by
            by_contra hno
            push_neg at hno
            apply hnotall
            refine ⟨c, ?_⟩
            intro sm hsm
            rcases List.mem_cons.mp hsm with he | hmem
            · rw [he]
              exact hD0
            · exact hno sm hmem
          rw [List.foldl_cons,
            show findStep (false, some []) sm0 = ((findStep (false, some []) sm0).1, some c)
              from Prod.ext rfl (by rw [findStep_snd_empty, hD0])]
          exact fold_snd_exists_ne c hc_ne rest _ hex
      unfold find
      rw [hms]
      rw [if_neg (by simp)]
      dsimp only
      rw [hst]
      rfl

/-- C1 witness: in the ambiguous two-account configuration `c1cfg`, the
decision rule's third case applies: `find` returns the stored debug
account (which is `None` here). -/
theorem find_decision_witness :
    find (strOf ("ab-2")) c1cfg = c1cfg.debug_account :=
  (find_decision (strOf ("ab-2")) c1cfg (by decide)).2.2 (by decide)

end Trualias
